import Mathlib

/-! msgp: the buffered MessagePack writer

A shallow embedding of `msgp/defs.go` and `msgp/write.go`.

* A byte is a `Nat` below 256; every conversion to a fixed width is an explicit `%`.
* Go's `int` values (`wloc`, `n`, lengths) are `Int`.
* The Writer's buffer is a `List Nat` whose length is `len(mw.buf)`; the buffer is created by
  `make([]byte, sz)`, so its length and capacity coincide.
* An operation returns `none` when the Go code panics (a slice expression or an index out of
  range), and `some (result, writer)` otherwise, where `result` is the Go return value.
* The sink (`io.Writer`) is an arbitrary response function together with the log of the bytes
  it has received so far.
-/

namespace Msgp

/-! ## defs.go: prefix bytes -/

def mfixint : Nat := 0x00
def mnfixint : Nat := 0xe0
def mfixmap : Nat := 0x80
def mfixarray : Nat := 0x90
def mfixstr : Nat := 0xa0
def mnil : Nat := 0xc0
def mfalse : Nat := 0xc2
def mtrue : Nat := 0xc3
def mbin8 : Nat := 0xc4
def mbin16 : Nat := 0xc5
def mbin32 : Nat := 0xc6
def mext8 : Nat := 0xc7
def mext16 : Nat := 0xc8
def mext32 : Nat := 0xc9
def mfloat32 : Nat := 0xca
def mfloat64 : Nat := 0xcb
def muint8 : Nat := 0xcc
def muint16 : Nat := 0xcd
def muint32 : Nat := 0xce
def muint64 : Nat := 0xcf
def mint8 : Nat := 0xd0
def mint16 : Nat := 0xd1
def mint32 : Nat := 0xd2
def mint64 : Nat := 0xd3
def mfixext1 : Nat := 0xd4
def mfixext2 : Nat := 0xd5
def mfixext4 : Nat := 0xd6
def mfixext8 : Nat := 0xd7
def mfixext16 : Nat := 0xd8
def mstr8 : Nat := 0xd9
def mstr16 : Nat := 0xda
def mstr32 : Nat := 0xdb
def marray16 : Nat := 0xdc
def marray32 : Nat := 0xdd
def mmap16 : Nat := 0xde
def mmap32 : Nat := 0xdf

def last4 : Nat := 0x0f
def first4 : Nat := 0xf0
def last5 : Nat := 0x1f
def first3 : Nat := 0xe0
def last7 : Nat := 0x7f

/-! ## Fixed-width conversions -/

/-- Conversion `uint8(x)` of an unsigned value. -/
def uint8 (x : Nat) : Nat := x % 2 ^ 8

/-- Conversion `uint16(x)` of an unsigned value. -/
def uint16 (x : Nat) : Nat := x % 2 ^ 16

/-- Conversion `uint32(x)` of an unsigned value. -/
def uint32 (x : Nat) : Nat := x % 2 ^ 32

/-- Conversion `uint8(i)` of a signed value (two's complement truncation). -/
def uint8OfInt (i : Int) : Nat := (i % 2 ^ 8).toNat

/-- Conversion `uint16(i)` of a signed value. -/
def uint16OfInt (i : Int) : Nat := (i % 2 ^ 16).toNat

/-- Conversion `uint32(i)` of a signed value. -/
def uint32OfInt (i : Int) : Nat := (i % 2 ^ 32).toNat

/-- Conversion `uint64(i)` of a signed value. -/
def uint64OfInt (i : Int) : Nat := (i % 2 ^ 64).toNat

/-- Conversion `int8(i)` of a signed value. -/
def int8 (i : Int) : Int := (i + 2 ^ 7) % 2 ^ 8 - 2 ^ 7

/-- Conversion `int8(b)` of a byte. -/
def int8OfByte (b : Nat) : Int := ((b : Int) + 2 ^ 7) % 2 ^ 8 - 2 ^ 7

/-! ## defs.go: the fixed-width inline forms -/

def isfixint (b : Nat) : Bool := b >>> 7 == 0

def isnfixint (b : Nat) : Bool := b &&& first3 == mnfixint

def isfixmap (b : Nat) : Bool := b &&& first4 == mfixmap

def isfixarray (b : Nat) : Bool := b &&& first4 == mfixarray

def isfixstr (b : Nat) : Bool := b &&& first3 == mfixstr

def wfixint (u : Nat) : Nat := u &&& last7

def rfixint (b : Nat) : Nat := b

/-- The argument is an `int8`; `byte(i)` is its two's complement byte. -/
def wnfixint (i : Int) : Nat := uint8OfInt i ||| mnfixint

def rnfixint (b : Nat) : Int := int8OfByte b

def rfixmap (b : Nat) : Nat := b &&& last4

def wfixmap (u : Nat) : Nat := mfixmap ||| (u &&& last4)

def rfixstr (b : Nat) : Nat := b &&& last5

def wfixstr (u : Nat) : Nat := (u &&& last5) ||| mfixstr

def rfixarray (b : Nat) : Nat := b &&& last4

def wfixarray (u : Nat) : Nat := (u &&& last4) ||| mfixarray

/-! ## The sink and the Writer -/

/-- An error value: an error of the sink; `errors.New("msgp: map keys must be strings")`;
the error `fmt.Errorf("msgp: type %s not supported", val)`, which keeps the name of the
value's type to identify the value; and `&ErrUnsupportedType` with the offending type. -/
inductive GoError where
  | io (code : Nat)
  | mapKeys
  | notSupported (val : String)
  | unsupportedType (ty : String)
deriving DecidableEq, Repr

/-- What one call of the sink's `Write` returns: `(n int, err error)`. -/
structure SinkResp where
  n : Int
  err : Option GoError
deriving DecidableEq, Repr

/-- The underlying `io.Writer`. `respond k p` is what the sink answers to its `k`-th call when
offered the bytes `p`; `received` logs the bytes it has consumed, in order. -/
structure Sink where
  respond : Nat → List Nat → SinkResp
  calls : Nat
  received : List Nat

/-- One call `w.Write(p)` of the sink: it consumes the first `n` bytes of `p`. -/
def Sink.Write (s : Sink) (p : List Nat) : SinkResp × Sink :=
  let r := s.respond s.calls p
  (r, { s with calls := s.calls + 1, received := s.received ++ p.take r.n.toNat })

structure Writer where
  w : Sink
  buf : List Nat
  wloc : Int

/-- The slice expression `b[lo:hi]`; `none` is the out-of-range panic. -/
def slice (b : List Nat) (lo hi : Int) : Option (List Nat) :=
  if 0 ≤ lo ∧ lo ≤ hi ∧ hi ≤ b.length then some ((b.take hi.toNat).drop lo.toNat) else none

/-- The builtin `copy(dst[off:], src)`: the new contents of `dst` and the number of bytes
copied, `min(len(dst)-off, len(src))`; `none` when `dst[off:]` panics. -/
def copyAt (dst : List Nat) (off : Int) (src : List Nat) : Option (List Nat × Int) :=
  if 0 ≤ off ∧ off ≤ dst.length then
    let n := min (dst.length - off.toNat) src.length
    some (dst.take off.toNat ++ src.take n ++ dst.drop (off.toNat + n), (n : Int))
  else none

/-- The indexed stores `b[off] = bs[0]; b[off+1] = bs[1]; ...`; `none` when one of them is out
of range. -/
def putAt (b : List Nat) (off : Int) (bs : List Nat) : Option (List Nat) :=
  if 0 ≤ off ∧ off + bs.length ≤ b.length then
    some (b.take off.toNat ++ bs ++ b.drop (off.toNat + bs.length))
  else none

/-- The result of a method returning `error`. -/
abbrev Result := Option (Option GoError × Writer)

/-- The Go idiom `if err := step; err != nil { return err }` followed by the rest of the body. -/
def orReturn (r : Result) (rest : Writer → Result) : Result :=
  match r with
  | none => none
  | some (some e, mw) => some (some e, mw)
  | some (none, mw) => rest mw

/-! ## write.go: Flush, Buffered, require -/

def Flush (mw : Writer) : Result :=
  if mw.wloc = 0 then some (none, mw)
  else
    match slice mw.buf 0 mw.wloc with
    | none => none
    | some p =>
      let (r, s) := mw.w.Write p
      match r.err with
      | some e =>
        if 0 < r.n then
          match slice mw.buf r.n mw.wloc with
          | none => none
          | some rest =>
            match copyAt mw.buf 0 rest with
            | none => none
            | some (b, c) => some (some e, { w := s, buf := b, wloc := c })
        else some (some e, { mw with w := s })
      | none => some (none, { mw with w := s, wloc := 0 })

def Buffered (mw : Writer) : Int := (mw.buf.length : Int) - mw.wloc

def bufsize (mw : Writer) : Int := mw.buf.length

/-- The Go method `require`, returning `(int, error)`. -/
def require (mw : Writer) (n : Int) : Option ((Int × Option GoError) × Writer) :=
  if (mw.buf.length : Int) - mw.wloc < n then
    match Flush mw with
    | none => none
    | some (some e, mw1) => some ((0, some e), mw1)
    | some (none, mw1) => some ((mw1.wloc, none), { mw1 with wloc := mw1.wloc + n })
  else some ((mw.wloc, none), { mw with wloc := mw.wloc + n })

/-! ## write.go: raw appends -/

def Append (mw : Writer) (bts : List Nat) : Result :=
  orReturn (if Buffered mw < bts.length then Flush mw else some (none, mw)) fun mw =>
    match copyAt mw.buf mw.wloc bts with
    | none => none
    | some (b, c) => some (none, { mw with buf := b, wloc := mw.wloc + c })

def push (mw : Writer) (b : Nat) : Result :=
  orReturn (if mw.wloc = mw.buf.length then Flush mw else some (none, mw)) fun mw =>
    match putAt mw.buf mw.wloc [b] with
    | none => none
    | some buf => some (none, { mw with buf := buf, wloc := mw.wloc + 1 })

/-- Big-endian bytes of a 16-bit value, as `binary.BigEndian.PutUint16` stores them. -/
def be16 (u : Nat) : List Nat := [(u >>> 8) % 256, u % 256]

/-- Big-endian bytes of a 32-bit value. -/
def be32 (u : Nat) : List Nat :=
  [(u >>> 24) % 256, (u >>> 16) % 256, (u >>> 8) % 256, u % 256]

/-- Big-endian bytes of a 64-bit value. -/
def be64 (u : Nat) : List Nat :=
  [(u >>> 56) % 256, (u >>> 48) % 256, (u >>> 40) % 256, (u >>> 32) % 256,
   (u >>> 24) % 256, (u >>> 16) % 256, (u >>> 8) % 256, u % 256]

/-- Modelled from the spec: `prefixu8` is not among the source files; `write_prefixed` "writes
the tag byte then `value` as a big-endian integer of `width` bytes". The first argument of the
Go function is the slice `mw.buf[mw.wloc:]`, here the buffer and the offset. -/
def prefixu8 (b : List Nat) (off : Int) (pre : Nat) (u : Nat) : Option (List Nat) :=
  putAt b off [pre, u]

/-- Modelled from the spec: `prefixu16` is not among the source files; it stores the tag byte,
then the value as 2 big-endian bytes. -/
def prefixu16 (b : List Nat) (off : Int) (pre : Nat) (u : Nat) : Option (List Nat) :=
  putAt b off (pre :: be16 u)

/-- Modelled from the spec: `prefixu32` is not among the source files; it stores the tag byte,
then the value as 4 big-endian bytes. -/
def prefixu32 (b : List Nat) (off : Int) (pre : Nat) (u : Nat) : Option (List Nat) :=
  putAt b off (pre :: be32 u)

/-- Modelled from the spec: `prefixu64` is not among the source files; it stores the tag byte,
then the value as 8 big-endian bytes. -/
def prefixu64 (b : List Nat) (off : Int) (pre : Nat) (u : Nat) : Option (List Nat) :=
  putAt b off (pre :: be64 u)

def prefix8 (mw : Writer) (b : Nat) (u : Nat) : Result :=
  orReturn (if (mw.buf.length : Int) - mw.wloc < 2 then Flush mw else some (none, mw)) fun mw =>
    match prefixu8 mw.buf mw.wloc b u with
    | none => none
    | some buf => some (none, { mw with buf := buf, wloc := mw.wloc + 2 })

def prefix16 (mw : Writer) (b : Nat) (u : Nat) : Result :=
  orReturn (if (mw.buf.length : Int) - mw.wloc < 3 then Flush mw else some (none, mw)) fun mw =>
    match prefixu16 mw.buf mw.wloc b u with
    | none => none
    | some buf => some (none, { mw with buf := buf, wloc := mw.wloc + 3 })

def prefix32 (mw : Writer) (b : Nat) (u : Nat) : Result :=
  orReturn (if (mw.buf.length : Int) - mw.wloc < 5 then Flush mw else some (none, mw)) fun mw =>
    match prefixu32 mw.buf mw.wloc b u with
    | none => none
    | some buf => some (none, { mw with buf := buf, wloc := mw.wloc + 5 })

def prefix64 (mw : Writer) (b : Nat) (u : Nat) : Result :=
  orReturn (if (mw.buf.length : Int) - mw.wloc < 9 then Flush mw else some (none, mw)) fun mw =>
    match prefixu64 mw.buf mw.wloc b u with
    | none => none
    | some buf => some (none, { mw with buf := buf, wloc := mw.wloc + 9 })

/-- The last two statements of `Write`: `mw.wloc += copy(mw.buf[mw.wloc:], p); return l, nil`. -/
def writeCopy (mw : Writer) (p : List Nat) : Option ((Int × Option GoError) × Writer) :=
  match copyAt mw.buf mw.wloc p with
  | none => none
  | some (b, c) => some (((p.length : Int), none), { mw with buf := b, wloc := mw.wloc + c })

/-- The Go method `Write`, returning `(int, error)`. -/
def Write (mw : Writer) (p : List Nat) : Option ((Int × Option GoError) × Writer) :=
  if Buffered mw < p.length then
    match Flush mw with
    | none => none
    | some (some e, mw1) => some ((0, some e), mw1)
    | some (none, mw1) =>
      if (p.length : Int) > mw1.buf.length then
        let (r, s) := mw1.w.Write p
        some ((r.n, r.err), { mw1 with w := s })
      else writeCopy mw1 p
  else writeCopy mw p

/-- The last two statements of `writeString`: `mw.wloc += copy(mw.buf[mw.wloc:], s); return nil`. -/
def writeStringCopy (mw : Writer) (s : List Nat) : Result :=
  match copyAt mw.buf mw.wloc s with
  | none => none
  | some (b, c) => some (none, { mw with buf := b, wloc := mw.wloc + c })

/-- A Go string is the list of its bytes; `io.WriteString(mw.w, s)` is one call of the sink. -/
def writeString (mw : Writer) (s : List Nat) : Result :=
  if Buffered mw < s.length then
    match Flush mw with
    | none => none
    | some (some e, mw1) => some (some e, mw1)
    | some (none, mw1) =>
      if (s.length : Int) > mw1.buf.length then
        let (r, snk) := mw1.w.Write s
        some (r.err, { mw1 with w := snk })
      else writeStringCopy mw1 s
  else writeStringCopy mw s

/-- The buffer's length already equals its capacity, so `mw.buf[:cap(mw.buf)]` is `mw.buf`. -/
def Reset (mw : Writer) (w : Sink) : Writer :=
  { w := w, buf := mw.buf, wloc := 0 }

/-! ## write.go: typed encode operations -/

def MaxInt8 : Nat := 127
def MaxInt16 : Nat := 32767
def MaxInt32 : Nat := 2147483647
def MinInt8 : Int := -128
def MinInt16 : Int := -32768
def MinInt32 : Int := -2147483648
def MaxUint8 : Nat := 255
def MaxUint16 : Nat := 65535
def MaxUint32 : Nat := 4294967295

/-- The argument is a `uint32`. -/
def WriteMapHeader (mw : Writer) (sz : Nat) : Result :=
  if sz ≤ 15 then push mw (wfixmap (uint8 sz))
  else if sz ≤ MaxUint16 then prefix16 mw mmap16 (uint16 sz)
  else prefix32 mw mmap32 sz

/-- The argument is a `uint32`. -/
def WriteArrayHeader (mw : Writer) (sz : Nat) : Result :=
  if sz ≤ 15 then push mw (wfixarray (uint8 sz))
  else if sz ≤ MaxUint16 then prefix16 mw marray16 (uint16 sz)
  else prefix32 mw marray32 sz

def WriteNil (mw : Writer) : Result := push mw mnil

/-- The argument is `math.Float64bits(f)`, a `uint64`. -/
def WriteFloat64 (mw : Writer) (bits : Nat) : Result := prefix64 mw mfloat64 bits

/-- The argument is `math.Float32bits(f)`, a `uint32`. -/
def WriteFloat32 (mw : Writer) (bits : Nat) : Result := prefix32 mw mfloat32 bits

/-- The argument is an `int64`. -/
def WriteInt64 (mw : Writer) (i : Int) : Result :=
  if i ≥ 0 then
    if i ≤ MaxInt8 then push mw (wfixint (uint8OfInt i))
    else if i ≤ MaxInt16 then prefix16 mw mint16 (uint16OfInt i)
    else if i ≤ MaxInt32 then prefix32 mw mint32 (uint32OfInt i)
    else prefix64 mw mint64 (uint64OfInt i)
  else
    if i ≥ -32 then push mw (wnfixint (int8 i))
    else if i ≥ MinInt8 then prefix8 mw mint8 (uint8OfInt i)
    else if i ≥ MinInt16 then prefix16 mw mint16 (uint16OfInt i)
    else if i ≥ MinInt32 then prefix32 mw mint32 (uint32OfInt i)
    else prefix64 mw mint64 (uint64OfInt i)

def WriteInt8 (mw : Writer) (i : Int) : Result := WriteInt64 mw i

def WriteInt16 (mw : Writer) (i : Int) : Result := WriteInt64 mw i

def WriteInt32 (mw : Writer) (i : Int) : Result := WriteInt64 mw i

def WriteInt (mw : Writer) (i : Int) : Result := WriteInt64 mw i

/-- The argument is a `uint64`. -/
def WriteUint64 (mw : Writer) (u : Nat) : Result :=
  if u ≤ MaxInt8 then push mw (wfixint (uint8 u))
  else if u ≤ MaxUint8 then prefix8 mw muint8 (uint8 u)
  else if u ≤ MaxUint16 then prefix16 mw muint16 (uint16 u)
  else if u ≤ MaxUint32 then prefix32 mw muint32 (uint32 u)
  else prefix64 mw muint64 u

def WriteUint8 (mw : Writer) (u : Nat) : Result := WriteUint64 mw u

def WriteByte (mw : Writer) (u : Nat) : Result := WriteUint8 mw u

def WriteUint16 (mw : Writer) (u : Nat) : Result := WriteUint64 mw u

def WriteUint32 (mw : Writer) (u : Nat) : Result := WriteUint64 mw u

def WriteUint (mw : Writer) (u : Nat) : Result := WriteUint64 mw u

def WriteBool (mw : Writer) (b : Bool) : Result :=
  if b then push mw mtrue else push mw mfalse

/-- The argument is a `uint32`. -/
def WriteBytesHeader (mw : Writer) (sz : Nat) : Result :=
  if sz ≤ MaxUint8 then prefix8 mw mbin8 (uint8 sz)
  else if sz ≤ MaxUint16 then prefix16 mw mbin16 (uint16 sz)
  else prefix32 mw mbin32 sz

def WriteBytes (mw : Writer) (b : List Nat) : Result :=
  orReturn (WriteBytesHeader mw (uint32 b.length)) fun mw =>
    match Write mw b with
    | none => none
    | some ((_, err), mw1) => some (err, mw1)

/-- The argument is a `uint32`. -/
def WriteStringHeader (mw : Writer) (sz : Nat) : Result :=
  if sz ≤ 31 then push mw (wfixstr (uint8 sz))
  else if sz ≤ MaxUint8 then prefix8 mw mstr8 (uint8 sz)
  else if sz ≤ MaxUint16 then prefix16 mw mstr16 (uint16 sz)
  else prefix32 mw mstr32 sz

def WriteString (mw : Writer) (s : List Nat) : Result :=
  orReturn (WriteStringHeader mw (uint32 s.length)) fun mw => writeString mw s

def WriteStringFromBytes (mw : Writer) (str : List Nat) : Result :=
  orReturn (WriteStringHeader mw (uint32 str.length)) fun mw =>
    match Write mw str with
    | none => none
    | some ((_, err), mw1) => some (err, mw1)

/-- The constant `Complex64Extension` is declared outside the source files and is a parameter;
`re` and `im` are `math.Float32bits(real(f))` and `math.Float32bits(imag(f))`. -/
def WriteComplex64 (Complex64Extension : Nat) (mw : Writer) (re im : Nat) : Result :=
  match require mw 10 with
  | none => none
  | some ((_, some e), mw1) => some (some e, mw1)
  | some ((o, none), mw1) =>
    ((((putAt mw1.buf o [mfixext8]).bind fun b => putAt b (o + 1) [Complex64Extension]).bind
      fun b => putAt b (o + 2) (be32 re)).bind fun b => putAt b (o + 6) (be32 im)).map
      fun b => (none, { mw1 with buf := b })

/-- The constant `Complex128Extension` is declared outside the source files and is a parameter;
`re` and `im` are `math.Float64bits(real(f))` and `math.Float64bits(imag(f))`. -/
def WriteComplex128 (Complex128Extension : Nat) (mw : Writer) (re im : Nat) : Result :=
  match require mw 18 with
  | none => none
  | some ((_, some e), mw1) => some (some e, mw1)
  | some ((o, none), mw1) =>
    ((((putAt mw1.buf o [mfixext16]).bind fun b => putAt b (o + 1) [Complex128Extension]).bind
      fun b => putAt b (o + 2) (be64 re)).bind fun b => putAt b (o + 10) (be64 im)).map
      fun b => (none, { mw1 with buf := b })

/-- The loop of `WriteMapStrStr` over the entries in the order the `range` visits them. -/
def writeMapStrStrLoop (mw : Writer) : List (List Nat × List Nat) → Result
  | [] => some (none, mw)
  | (key, val) :: rest =>
    match WriteString mw key with
    | none => none
    | some (some e, mw1) => some (some e, mw1)
    | some (none, mw1) =>
      match WriteString mw1 val with
      | none => none
      | some (some e, mw2) => some (some e, mw2)
      | some (none, mw2) => writeMapStrStrLoop mw2 rest

/-- A `map[string]string` is the list of its entries in iteration order. -/
def WriteMapStrStr (mw : Writer) (mp : List (List Nat × List Nat)) : Result :=
  orReturn (WriteMapHeader mw (uint32 mp.length)) fun mw => writeMapStrStrLoop mw mp

/-- Modelled from the spec: `putUnix` is not among the source files; the payload is "an 8-byte
big-endian signed seconds-since-Unix-epoch, then a 4-byte big-endian signed nanosecond
offset". -/
def putUnix (b : List Nat) (off : Int) (sec : Int) (nsec : Int) : Option (List Nat) :=
  putAt b off (be64 (uint64OfInt sec) ++ be32 (uint32OfInt nsec))

/-- The constant `TimeExtension` is declared outside the source files and is a parameter;
`sec` and `nsec` are `t.Unix()` and `int32(t.Nanosecond())` of the time converted to UTC. -/
def WriteTime (TimeExtension : Nat) (mw : Writer) (sec nsec : Int) : Result :=
  match require mw 15 with
  | none => none
  | some ((_, some e), mw1) => some (some e, mw1)
  | some ((o, none), mw1) =>
    ((((putAt mw1.buf o [mext8]).bind fun b => putAt b (o + 1) [12]).bind
      fun b => putAt b (o + 2) [TimeExtension]).bind fun b => putUnix b (o + 3) sec nsec).map
      fun b => (none, { mw1 with buf := b })

/-! ## Specification vocabulary -/

/-- The output stream: all bytes received by the sink, in order, followed by `buf[0:wloc]`. -/
def stream (mw : Writer) : List Nat := mw.w.received ++ mw.buf.take mw.wloc.toNat

/-- The sink accepts every write completely: it answers `(len(p), nil)` to every call. -/
def Accepting (s : Sink) : Prop := ∀ k p, s.respond k p = ⟨(p.length : Int), none⟩

/-- The sink accepts some count between 0 and the number of bytes offered, with or without an
error. -/
def Bounded (s : Sink) : Prop := ∀ k p, 0 ≤ (s.respond k p).n ∧ (s.respond k p).n ≤ p.length

/-- The state of a Writer made by `NewWriter` or `NewWriterSize`: the cursor lies within the
buffer, whose length is at least 18. -/
def Valid (mw : Writer) : Prop :=
  0 ≤ mw.wloc ∧ mw.wloc ≤ mw.buf.length ∧ 18 ≤ mw.buf.length

instance (mw : Writer) : Decidable (Valid mw) := by
  unfold Valid
  infer_instance

/-- The call returned no error and extended the output stream by exactly `bs`, keeping the
buffer's length, the cursor within the buffer and the sink's behaviour. -/
def Emits (mw : Writer) (bs : List Nat) (r : Result) : Prop :=
  ∃ mw2, r = some (none, mw2) ∧ stream mw2 = stream mw ++ bs ∧
    mw2.buf.length = mw.buf.length ∧ 0 ≤ mw2.wloc ∧ mw2.wloc ≤ mw2.buf.length ∧
    mw2.w.respond = mw.w.respond

/-- The `w` big-endian bytes of `v`: its base-256 digits, most significant first. -/
def bigEndian : Nat → Nat → List Nat
  | 0, _ => []
  | w + 1, v => (v / 256 ^ w) % 256 :: bigEndian w v

/-- The unsigned value a big-endian byte sequence denotes. -/
def beValue (bs : List Nat) : Nat := bs.foldl (fun acc b => acc * 256 + b) 0

/-- The wire bytes the unsigned-integer rule prescribes for `u`. -/
def uintWire (u : Nat) : List Nat :=
  if u ≤ 127 then [u]
  else if u ≤ 255 then [0xcc, u]
  else if u ≤ 65535 then 0xcd :: bigEndian 2 u
  else if u ≤ 2 ^ 32 - 1 then 0xce :: bigEndian 4 u
  else 0xcf :: bigEndian 8 u

/-- The low `w` bytes of the two's complement representation of `i`, in big-endian order. -/
def lowBytes (w : Nat) (i : Int) : List Nat := bigEndian w (i % 2 ^ (8 * w)).toNat

/-- The wire bytes the signed-integer rule prescribes for `i`. -/
def intWire (i : Int) : List Nat :=
  if i ≥ 0 then
    if i ≤ 127 then lowBytes 1 i
    else if i ≤ 32767 then 0xd1 :: lowBytes 2 i
    else if i ≤ 2 ^ 31 - 1 then 0xd2 :: lowBytes 4 i
    else 0xd3 :: lowBytes 8 i
  else
    if i ≥ -32 then lowBytes 1 i
    else if i ≥ -128 then 0xd0 :: lowBytes 1 i
    else if i ≥ -32768 then 0xd1 :: lowBytes 2 i
    else if i ≥ -2 ^ 31 then 0xd2 :: lowBytes 4 i
    else 0xd3 :: lowBytes 8 i

/-- The integer forms of the MessagePack wire format. -/
inductive IntForm where
  | posFixint | negFixint | uint8 | uint16 | uint32 | uint64 | int8 | int16 | int32 | int64
deriving DecidableEq, Repr

/-- The values a form represents exactly. -/
def IntForm.represents : IntForm → Int → Bool
  | .posFixint, i => decide (0 ≤ i ∧ i ≤ 127)
  | .negFixint, i => decide (-32 ≤ i ∧ i ≤ -1)
  | .uint8, i => decide (0 ≤ i ∧ i < 2 ^ 8)
  | .uint16, i => decide (0 ≤ i ∧ i < 2 ^ 16)
  | .uint32, i => decide (0 ≤ i ∧ i < 2 ^ 32)
  | .uint64, i => decide (0 ≤ i ∧ i < 2 ^ 64)
  | .int8, i => decide (-2 ^ 7 ≤ i ∧ i < 2 ^ 7)
  | .int16, i => decide (-2 ^ 15 ≤ i ∧ i < 2 ^ 15)
  | .int32, i => decide (-2 ^ 31 ≤ i ∧ i < 2 ^ 31)
  | .int64, i => decide (-2 ^ 63 ≤ i ∧ i < 2 ^ 63)

/-- The number of bytes a form occupies on the wire: the tag byte and the payload. -/
def IntForm.size : IntForm → Nat
  | .posFixint => 1
  | .negFixint => 1
  | .uint8 => 2
  | .uint16 => 3
  | .uint32 => 5
  | .uint64 => 9
  | .int8 => 2
  | .int16 => 3
  | .int32 => 5
  | .int64 => 9

/-- The forms `WriteInt64` draws from: the two fixints and the `int` family. -/
def IntForm.signed : IntForm → Bool
  | .posFixint => true
  | .negFixint => true
  | .int8 => true
  | .int16 => true
  | .int32 => true
  | .int64 => true
  | _ => false

/-- The wire bytes of `i` in a form: the fixint byte, or the tag followed by the low bytes of
`i` in big-endian order. -/
def IntForm.wire : IntForm → Int → List Nat
  | .posFixint, i => lowBytes 1 i
  | .negFixint, i => lowBytes 1 i
  | .uint8, i => 0xcc :: lowBytes 1 i
  | .uint16, i => 0xcd :: lowBytes 2 i
  | .uint32, i => 0xce :: lowBytes 4 i
  | .uint64, i => 0xcf :: lowBytes 8 i
  | .int8, i => 0xd0 :: lowBytes 1 i
  | .int16, i => 0xd1 :: lowBytes 2 i
  | .int32, i => 0xd2 :: lowBytes 4 i
  | .int64, i => 0xd3 :: lowBytes 8 i

/-- The signed value of the `w`-byte two's complement pattern `v`. -/
def twosComplement (w : Nat) (v : Nat) : Int :=
  if v < 2 ^ (8 * w - 1) then (v : Int) else (v : Int) - 2 ^ (8 * w)

/-- Modelled from the spec: the read path is not among the source files. A payload of width
`w` is the next `w` bytes, read as a big-endian two's complement integer. -/
def readPayload (w : Nat) (rest : List Nat) : Option Int :=
  if rest.length < w then none else some (twosComplement w (beValue (rest.take w)))

/-- Modelled from the spec: the read path is not among the source files. The standard
MessagePack integer rule for the signed forms: a byte with top bit 0 is its own value
(`rfixint`), a byte with top three bits 111 is a signed 8-bit value (`rnfixint`), and an
`int8`/`int16`/`int32`/`int64` tag is followed by a payload of that width. -/
def readInt64 : List Nat → Option Int
  | [] => none
  | b :: rest =>
    if isfixint b then some (rfixint b : Int)
    else if isnfixint b then some (rnfixint b)
    else if b = mint8 then readPayload 1 rest
    else if b = mint16 then readPayload 2 rest
    else if b = mint32 then readPayload 4 rest
    else if b = mint64 then readPayload 8 rest
    else none

/-- The wire bytes of a map or array header of count `n`, given the fixed-form base and the
16-bit and 32-bit tags. -/
def headerWire (fixed tag16 tag32 n : Nat) : List Nat :=
  if n ≤ 15 then [fixed ||| n]
  else if n ≤ 65535 then tag16 :: bigEndian 2 n
  else tag32 :: bigEndian 4 n

/-- The wire bytes of the header of a string of byte length `n`. -/
def strHeaderWire (n : Nat) : List Nat :=
  if n ≤ 31 then [0xa0 ||| n]
  else if n ≤ 255 then [0xd9, n]
  else if n ≤ 65535 then 0xda :: bigEndian 2 n
  else 0xdb :: bigEndian 4 n

/-- The call did not panic (no slice or index was out of range) and left a Writer whose cursor
lies within the buffer, over a sink that still answers within bounds. -/
def Safe {α : Type} (r : Option (α × Writer)) : Prop :=
  ∃ a mw2, r = some (a, mw2) ∧ Valid mw2 ∧ Bounded mw2.w

/-- A sink that accepts everything and has received nothing yet (like `Nowhere`, with a log). -/
def freshSink : Sink := ⟨fun _ p => ⟨(p.length : Int), none⟩, 0, []⟩

/-! ## write.go: the constructor -/

/-- The result of `make([]byte, sz)` is `sz` zero bytes. -/
def NewWriterSize (w : Sink) (sz : Int) : Writer :=
  let sz := if sz < 18 then 18 else sz
  { w := w, buf := List.replicate sz.toNat 0, wloc := 0 }

/-! ## write.go: Require -/

/-- A byte slice: its elements `[0:len]` and its capacity. -/
structure Slice where
  data : List Nat
  cap : Nat
deriving DecidableEq, Repr

/-- Arithmetic on Go's `int` wraps around; `int` is 64 bits wide on 64-bit platforms. -/
def wrapInt (x : Int) : Int := (x + 2 ^ 63) % 2 ^ 64 - 2 ^ 63

/-- The largest size of one allocation, `maxAlloc` of the Go runtime: `2^48` bytes on 64-bit
platforms. -/
def maxAlloc : Int := 2 ^ 48

/-- The builtin `make([]byte, l, c)`; `none` is the panic of `makeslice` ("len out of range",
"cap out of range") for a negative length, a capacity below the length or a capacity above
`maxAlloc`. -/
def makeSlice (l c : Int) : Option Slice :=
  if 0 ≤ l ∧ l ≤ c ∧ c ≤ maxAlloc then some ⟨List.replicate l.toNat 0, c.toNat⟩ else none

/-- The builtin `copy(n, old)` into the elements of `n`. -/
def copySlice (n : Slice) (old : List Nat) : Slice :=
  { n with data := old.take n.data.length ++ n.data.drop old.length }

def Require (old : Slice) (extra : Int) : Option Slice :=
  let l : Int := old.data.length
  let c : Int := old.cap
  let r := wrapInt (l + extra)
  if c ≥ r then some old
  else if l = 0 then makeSlice 0 extra
  else
    let c := wrapInt (c * 2)
    let c := if c < r then r else c
    match makeSlice l c with
    | none => none
    | some n => some (copySlice n old.data)

/-- The sink reports an error whenever it accepts fewer bytes than it was offered (the contract
of `io.Writer`). -/
def Honest (s : Sink) : Prop :=
  ∀ k p, (s.respond k p).n < p.length → (s.respond k p).err ≠ none

/-! ## write.go: the dynamic encoder -/

/-- The kinds of `reflect.Kind`. -/
inductive Kind where
  | Invalid | Bool | Int | Int8 | Int16 | Int32 | Int64 | Uint | Uint8 | Uint16 | Uint32
  | Uint64 | Uintptr | Float32 | Float64 | Complex64 | Complex128 | Array | Chan | Func
  | Interface | Map | Ptr | Slice | String | Struct | UnsafePointer
deriving DecidableEq, Repr

def isSupported (k : Kind) : Bool :=
  k != Kind.Func && k != Kind.Chan && k != Kind.Invalid && k != Kind.UnsafePointer

/-- A value that implements `Extension` (the interface is declared outside the source files):
its type id, its length and its payload. -/
structure ExtensionVal where
  ExtensionType : Int
  Len : Int
  payload : List Nat

/-- The capabilities of a value's dynamic type: its `EncodeMsg` method when the type implements
`Encoder`, and its extension view when it implements `Extension`. -/
structure Caps where
  encoder : Option (Writer → Result)
  extension : Option ExtensionVal

/-- A dynamically typed value `v interface{}`, by the cases `WriteIntf` distinguishes: the nil
interface; the exact built-in types of the type switch, which have no methods; and the values
handled through `reflect`, which carry their capabilities, the name of their type and what
`reflect` exposes of them. A map is the list of its entries in iteration order, each key as
`key.String()`. The constructor `other` stands for every value whose kind is not pointer,
slice, map or array. -/
inductive Value where
  | nil
  | bool (v : Bool)
  | float32 (bits : Nat)
  | float64 (bits : Nat)
  | complex64 (re im : Nat)
  | complex128 (re im : Nat)
  | uint8 (v : Nat)
  | uint16 (v : Nat)
  | uint32 (v : Nat)
  | uint64 (v : Nat)
  | uint (v : Nat)
  | int8 (v : Int)
  | int16 (v : Int)
  | int32 (v : Int)
  | int64 (v : Int)
  | int (v : Int)
  | string (s : List Nat)
  | bytes (b : List Nat)
  | mapStrStr (mp : List (List Nat × List Nat))
  | mapStrIntf (mp : List (List Nat × Value))
  | time (sec nsec : Int)
  | nilPtr (c : Caps) (ty : String)
  | ptr (c : Caps) (ty : String) (elem : Value)
  | byteSlice (c : Caps) (ty : String) (b : List Nat)
  | slice (c : Caps) (ty : String) (elems : List Value)
  | map (c : Caps) (ty : String) (keyKind : Kind) (entries : List (List Nat × Value))
  | array (c : Caps) (ty : String) (elems : List Value)
  | other (c : Caps) (ty : String) (k : Kind)

/-- The capabilities of a value; the nil interface and the built-in types have none. -/
def Value.caps : Value → Caps
  | .nilPtr c _ => c
  | .ptr c _ _ => c
  | .byteSlice c _ _ => c
  | .slice c _ _ => c
  | .map c _ _ _ => c
  | .array c _ _ => c
  | .other c _ _ => c
  | _ => ⟨none, none⟩

/-- The kind `reflect.ValueOf(v).Kind()`. -/
def Value.kind : Value → Kind
  | .nil => Kind.Invalid
  | .bool _ => Kind.Bool
  | .float32 _ => Kind.Float32
  | .float64 _ => Kind.Float64
  | .complex64 _ _ => Kind.Complex64
  | .complex128 _ _ => Kind.Complex128
  | .uint8 _ => Kind.Uint8
  | .uint16 _ => Kind.Uint16
  | .uint32 _ => Kind.Uint32
  | .uint64 _ => Kind.Uint64
  | .uint _ => Kind.Uint
  | .int8 _ => Kind.Int8
  | .int16 _ => Kind.Int16
  | .int32 _ => Kind.Int32
  | .int64 _ => Kind.Int64
  | .int _ => Kind.Int
  | .string _ => Kind.String
  | .bytes _ => Kind.Slice
  | .mapStrStr _ => Kind.Map
  | .mapStrIntf _ => Kind.Map
  | .time _ _ => Kind.Struct
  | .nilPtr _ _ => Kind.Ptr
  | .ptr _ _ _ => Kind.Ptr
  | .byteSlice _ _ _ => Kind.Slice
  | .slice _ _ _ => Kind.Slice
  | .map _ _ _ _ => Kind.Map
  | .array _ _ _ => Kind.Array
  | .other _ _ k => k

/-- What `WriteIntf` needs from outside the source files: the method `WriteExtension` and the
three reserved extension ids. -/
structure Env where
  WriteExtension : Writer → ExtensionVal → Result
  Complex64Extension : Nat
  Complex128Extension : Nat
  TimeExtension : Nat

mutual

/-- The first match is `if v == nil`; the tests of `caps` are the cases `Encoder` and
`Extension` of the type switch; then come its concrete types and the `reflect` part. -/
def WriteIntf (env : Env) (mw : Writer) (v : Value) : Result :=
  match v with
  | .nil => WriteNil mw
  | v =>
    match v.caps.encoder with
    | some EncodeMsg => EncodeMsg mw
    | none =>
      match v.caps.extension with
      | some e => env.WriteExtension mw e
      | none =>
        match v with
        | .nil => WriteNil mw
        | .bool b => WriteBool mw b
        | .float32 bits => WriteFloat32 mw bits
        | .float64 bits => WriteFloat64 mw bits
        | .complex64 re im => WriteComplex64 env.Complex64Extension mw re im
        | .complex128 re im => WriteComplex128 env.Complex128Extension mw re im
        | .uint8 u => WriteUint8 mw u
        | .uint16 u => WriteUint16 mw u
        | .uint32 u => WriteUint32 mw u
        | .uint64 u => WriteUint64 mw u
        | .uint u => WriteUint mw u
        | .int8 i => WriteInt8 mw i
        | .int16 i => WriteInt16 mw i
        | .int32 i => WriteInt32 mw i
        | .int64 i => WriteInt64 mw i
        | .int i => WriteInt mw i
        | .string s => WriteString mw s
        | .bytes b => WriteBytes mw b
        | .mapStrStr mp => WriteMapStrStr mw mp
        | .mapStrIntf mp =>
          match WriteMapHeader mw (uint32 mp.length) with
          | none => none
          | some (some e, mw1) => some (some e, mw1)
          | some (none, mw1) => writeMapLoop env mw1 mp
        | .time sec nsec => WriteTime env.TimeExtension mw sec nsec
        | .nilPtr _ _ => WriteNil mw
        | .ptr _ _ elem => WriteIntf env mw elem
        | .byteSlice _ _ b => WriteBytes mw b
        | .slice _ _ elems =>
          match WriteArrayHeader mw (uint32 elems.length) with
          | none => none
          | some (some e, mw1) => some (some e, mw1)
          | some (none, mw1) => writeSliceLoop env mw1 (uint32 elems.length) elems
        | .map _ _ keyKind entries =>
          if keyKind ≠ Kind.String then some (some GoError.mapKeys, mw)
          else
            match WriteMapHeader mw (uint32 entries.length) with
            | none => none
            | some (some e, mw1) => some (some e, mw1)
            | some (none, mw1) => writeMapLoop env mw1 entries
        | .array _ ty _ => some (some (GoError.unsupportedType ty), mw)
        | .other _ ty k =>
          if !isSupported k then some (some (GoError.notSupported ty), mw)
          else some (some (GoError.unsupportedType ty), mw)

/-- The loops of `WriteMapStrIntf` and `writeMap`: the key as a string, then the value. -/
def writeMapLoop (env : Env) (mw : Writer) : List (List Nat × Value) → Result
  | [] => some (none, mw)
  | (key, val) :: rest =>
    match WriteString mw key with
    | none => none
    | some (some e, mw1) => some (some e, mw1)
    | some (none, mw1) =>
      match WriteIntf env mw1 val with
      | none => none
      | some (some e, mw2) => some (some e, mw2)
      | some (none, mw2) => writeMapLoop env mw2 rest

/-- The loop `for i := uint32(0); i < sz; i++` of `writeSlice`; `todo` is `sz - i`. -/
def writeSliceLoop (env : Env) (mw : Writer) (todo : Nat) : List Value → Result
  | [] => some (none, mw)
  | v :: rest =>
    if todo = 0 then some (none, mw)
    else
      match WriteIntf env mw v with
      | none => none
      | some (some e, mw1) => some (some e, mw1)
      | some (none, mw1) => writeSliceLoop env mw1 (todo - 1) rest

end

/-- An environment for the examples: `WriteExtension` writes nothing; the ids are 3, 4, 5. -/
def exampleEnv : Env := ⟨fun mw _ => some (none, mw), 3, 4, 5⟩

/-- A value without capabilities. -/
def noCaps : Caps := ⟨none, none⟩

/-- The method `WriteMapStrIntf`; a `map[string]interface{}` is the list of its entries in
iteration order. -/
def WriteMapStrIntf (env : Env) (mw : Writer) (mp : List (List Nat × Value)) : Result :=
  match WriteMapHeader mw (uint32 mp.length) with
  | none => none
  | some (some e, mw1) => some (some e, mw1)
  | some (none, mw1) => writeMapLoop env mw1 mp

/-- The `EncodeMsg` method a value may carry is code outside the source files; it acts on the
Writer through the Writer's operations, so from a valid writer over a bounded sink it returns
without panic and leaves such a writer. -/
def Caps.keeps (c : Caps) : Prop :=
  ∀ f, c.encoder = some f → ∀ mw, Valid mw → Bounded mw.w → Safe (f mw)

/-- The same for `WriteExtension`, a method of the Writer declared outside the source files. -/
def Env.keeps (env : Env) : Prop :=
  ∀ mw e, Valid mw → Bounded mw.w → Safe (env.WriteExtension mw e)

mutual

/-- Every `EncodeMsg` inside the value keeps the invariant. -/
def Value.keeps : Value → Prop
  | .mapStrIntf mp => entriesKeep mp
  | .nilPtr c _ => c.keeps
  | .ptr c _ elem => c.keeps ∧ elem.keeps
  | .byteSlice c _ _ => c.keeps
  | .slice c _ elems => c.keeps ∧ elemsKeep elems
  | .map c _ _ entries => c.keeps ∧ entriesKeep entries
  | .array c _ _ => c.keeps
  | .other c _ _ => c.keeps
  | _ => True

/-- Every value of the entries keeps the invariant. -/
def entriesKeep : List (List Nat × Value) → Prop
  | [] => True
  | (_, v) :: rest => v.keeps ∧ entriesKeep rest

/-- Every element keeps the invariant. -/
def elemsKeep : List Value → Prop
  | [] => True
  | v :: rest => v.keeps ∧ elemsKeep rest

end

/-- The operations of the Writer, with their arguments. -/
inductive Op where
  | Flush
  | Write (p : List Nat)
  | Append (bts : List Nat)
  | Reset (w : Sink)
  | push (b : Nat)
  | prefix8 (b u : Nat)
  | prefix16 (b u : Nat)
  | prefix32 (b u : Nat)
  | prefix64 (b u : Nat)
  | require (n : Int)
  | WriteMapHeader (sz : Nat)
  | WriteArrayHeader (sz : Nat)
  | WriteNil
  | WriteFloat64 (bits : Nat)
  | WriteFloat32 (bits : Nat)
  | WriteInt64 (i : Int)
  | WriteInt8 (i : Int)
  | WriteInt16 (i : Int)
  | WriteInt32 (i : Int)
  | WriteInt (i : Int)
  | WriteUint64 (u : Nat)
  | WriteByte (u : Nat)
  | WriteUint8 (u : Nat)
  | WriteUint16 (u : Nat)
  | WriteUint32 (u : Nat)
  | WriteUint (u : Nat)
  | WriteBool (b : Bool)
  | WriteBytes (b : List Nat)
  | WriteBytesHeader (sz : Nat)
  | WriteString (s : List Nat)
  | WriteStringHeader (sz : Nat)
  | WriteStringFromBytes (str : List Nat)
  | WriteComplex64 (ext re im : Nat)
  | WriteComplex128 (ext re im : Nat)
  | WriteMapStrStr (mp : List (List Nat × List Nat))
  | WriteTime (ext : Nat) (sec nsec : Int)
  | WriteMapStrIntf (env : Env) (mp : List (List Nat × Value))
  | WriteIntf (env : Env) (v : Value)

/-- The Writer after an operation; `none` when the operation panics. -/
def Op.run : Op → Writer → Option Writer
  | .Flush, mw => (Msgp.Flush mw).map Prod.snd
  | .Write p, mw => (Msgp.Write mw p).map Prod.snd
  | .Append bts, mw => (Msgp.Append mw bts).map Prod.snd
  | .Reset w, mw => some (Msgp.Reset mw w)
  | .push b, mw => (Msgp.push mw b).map Prod.snd
  | .prefix8 b u, mw => (Msgp.prefix8 mw b u).map Prod.snd
  | .prefix16 b u, mw => (Msgp.prefix16 mw b u).map Prod.snd
  | .prefix32 b u, mw => (Msgp.prefix32 mw b u).map Prod.snd
  | .prefix64 b u, mw => (Msgp.prefix64 mw b u).map Prod.snd
  | .require n, mw => (Msgp.require mw n).map Prod.snd
  | .WriteMapHeader sz, mw => (Msgp.WriteMapHeader mw sz).map Prod.snd
  | .WriteArrayHeader sz, mw => (Msgp.WriteArrayHeader mw sz).map Prod.snd
  | .WriteNil, mw => (Msgp.WriteNil mw).map Prod.snd
  | .WriteFloat64 bits, mw => (Msgp.WriteFloat64 mw bits).map Prod.snd
  | .WriteFloat32 bits, mw => (Msgp.WriteFloat32 mw bits).map Prod.snd
  | .WriteInt64 i, mw => (Msgp.WriteInt64 mw i).map Prod.snd
  | .WriteInt8 i, mw => (Msgp.WriteInt8 mw i).map Prod.snd
  | .WriteInt16 i, mw => (Msgp.WriteInt16 mw i).map Prod.snd
  | .WriteInt32 i, mw => (Msgp.WriteInt32 mw i).map Prod.snd
  | .WriteInt i, mw => (Msgp.WriteInt mw i).map Prod.snd
  | .WriteUint64 u, mw => (Msgp.WriteUint64 mw u).map Prod.snd
  | .WriteByte u, mw => (Msgp.WriteByte mw u).map Prod.snd
  | .WriteUint8 u, mw => (Msgp.WriteUint8 mw u).map Prod.snd
  | .WriteUint16 u, mw => (Msgp.WriteUint16 mw u).map Prod.snd
  | .WriteUint32 u, mw => (Msgp.WriteUint32 mw u).map Prod.snd
  | .WriteUint u, mw => (Msgp.WriteUint mw u).map Prod.snd
  | .WriteBool b, mw => (Msgp.WriteBool mw b).map Prod.snd
  | .WriteBytes b, mw => (Msgp.WriteBytes mw b).map Prod.snd
  | .WriteBytesHeader sz, mw => (Msgp.WriteBytesHeader mw sz).map Prod.snd
  | .WriteString s, mw => (Msgp.WriteString mw s).map Prod.snd
  | .WriteStringHeader sz, mw => (Msgp.WriteStringHeader mw sz).map Prod.snd
  | .WriteStringFromBytes str, mw => (Msgp.WriteStringFromBytes mw str).map Prod.snd
  | .WriteComplex64 ext re im, mw => (Msgp.WriteComplex64 ext mw re im).map Prod.snd
  | .WriteComplex128 ext re im, mw => (Msgp.WriteComplex128 ext mw re im).map Prod.snd
  | .WriteMapStrStr mp, mw => (Msgp.WriteMapStrStr mw mp).map Prod.snd
  | .WriteTime ext sec nsec, mw => (Msgp.WriteTime ext mw sec nsec).map Prod.snd
  | .WriteMapStrIntf env mp, mw => (Msgp.WriteMapStrIntf env mw mp).map Prod.snd
  | .WriteIntf env v, mw => (Msgp.WriteIntf env mw v).map Prod.snd

/-- The conditions on the arguments: `require(n)` is called with a byte count `0 <= n <= 18`;
for the dynamic encoder, the code a value brings from outside the source files (`EncodeMsg`,
`WriteExtension`) keeps the invariant. The other operations take any argument. -/
def Op.admissible : Op → Prop
  | .require n => 0 ≤ n ∧ n ≤ 18
  | .WriteMapStrIntf env mp => env.keeps ∧ entriesKeep mp
  | .WriteIntf env v => env.keeps ∧ v.keeps
  | _ => True

end Msgp

namespace Msgp

/-! ## Basic facts about slices and copies -/

theorem putAt_some (b : List Nat) (off : Int) (bs : List Nat)
    (h0 : 0 ≤ off) (h1 : off + bs.length ≤ b.length) :
    ∃ b2, putAt b off bs = some b2 ∧ b2.length = b.length ∧
      b2.take (off + bs.length).toNat = b.take off.toNat ++ bs := by
  refine ⟨_, if_pos ⟨h0, h1⟩, ?_, ?_⟩
  · simp only [List.length_append, List.length_take, List.length_drop]
    omega
  · have e : (off + bs.length).toNat = (b.take off.toNat ++ bs).length := by
      simp only [List.length_append, List.length_take]
      omega
    rw [e, List.take_left]

theorem Flush_accepting (mw : Writer) (h0 : 0 ≤ mw.wloc) (h1 : mw.wloc ≤ mw.buf.length)
    (ha : Accepting mw.w) :
    ∃ mw2, Flush mw = some (none, mw2) ∧ mw2.wloc = 0 ∧ mw2.buf = mw.buf ∧
      mw2.w.received = stream mw ∧ mw2.w.respond = mw.w.respond := by
  unfold Flush
  by_cases hz : mw.wloc = 0
  · refine ⟨mw, if_pos hz, hz, rfl, ?_, rfl⟩
    simp [stream, hz]
  · rw [if_neg hz]
    have hs : slice mw.buf 0 mw.wloc = some (mw.buf.take mw.wloc.toNat) := by
      simp [slice, h0, h1]
    have hr := ha mw.w.calls (mw.buf.take mw.wloc.toNat)
    simp only [hs, Sink.Write, hr]
    refine ⟨_, rfl, rfl, rfl, ?_, rfl⟩
    simp only [stream, Int.toNat_ofNat]
    congr 1
    apply List.take_of_length_le
    simp

theorem emit_core (mw : Writer) (c : Prop) [Decidable c] (bs : List Nat) (k : Int)
    (hk : k = bs.length) (h0 : 0 ≤ mw.wloc) (h1 : mw.wloc ≤ mw.buf.length)
    (hlen : k ≤ mw.buf.length) (hc : ¬ c → mw.wloc + k ≤ mw.buf.length)
    (ha : Accepting mw.w) :
    Emits mw bs (orReturn (if c then Flush mw else some (none, mw)) fun m =>
      match putAt m.buf m.wloc bs with
      | none => none
      | some buf => some (none, { m with buf := buf, wloc := m.wloc + k })) := by
  subst hk
  by_cases h : c
  · obtain ⟨mw2, hF, hw, hb, hr, hresp⟩ := Flush_accepting mw h0 h1 ha
    obtain ⟨b2, hp, hl, ht⟩ := putAt_some mw2.buf mw2.wloc bs (by omega) (by rw [hw, hb]; omega)
    rw [hw] at ht
    simp only [zero_add, Int.toNat_ofNat, Int.toNat_zero, List.take_zero, List.nil_append] at ht
    rw [if_pos h, hF]
    simp only [orReturn, hp]
    refine ⟨_, rfl, ?_, ?_, ?_, ?_, hresp⟩
    · simp only [stream, hr, hw]
      simp [ht]
    · simp only [hl, hb]
    · simp only [hw]; omega
    · simp only [hw, hl, hb]; omega
  · obtain ⟨b2, hp, hl, ht⟩ := putAt_some mw.buf mw.wloc bs h0 (hc h)
    rw [if_neg h]
    simp only [orReturn, hp]
    refine ⟨_, rfl, ?_, hl, ?_, ?_, rfl⟩
    · simp only [stream, ht, List.append_assoc]
    · simp only; omega
    · simp only [hl]; exact hc h

theorem push_emits (mw : Writer) (b : Nat) (hv : Valid mw) (ha : Accepting mw.w) :
    Emits mw [b] (push mw b) := by
  obtain ⟨h0, h1, h2⟩ := hv
  exact emit_core mw _ [b] 1 rfl h0 h1 (by omega) (by intro h; omega) ha

theorem prefix8_emits (mw : Writer) (b u : Nat) (hv : Valid mw) (ha : Accepting mw.w) :
    Emits mw [b, u] (prefix8 mw b u) := by
  obtain ⟨h0, h1, h2⟩ := hv
  exact emit_core mw _ [b, u] 2 rfl h0 h1 (by omega) (by intro h; omega) ha

theorem prefix16_emits (mw : Writer) (b u : Nat) (hv : Valid mw) (ha : Accepting mw.w) :
    Emits mw (b :: be16 u) (prefix16 mw b u) := by
  obtain ⟨h0, h1, h2⟩ := hv
  exact emit_core mw _ (b :: be16 u) 3 rfl h0 h1 (by omega) (by intro h; omega) ha

theorem prefix32_emits (mw : Writer) (b u : Nat) (hv : Valid mw) (ha : Accepting mw.w) :
    Emits mw (b :: be32 u) (prefix32 mw b u) := by
  obtain ⟨h0, h1, h2⟩ := hv
  exact emit_core mw _ (b :: be32 u) 5 rfl h0 h1 (by omega) (by intro h; omega) ha

theorem prefix64_emits (mw : Writer) (b u : Nat) (hv : Valid mw) (ha : Accepting mw.w) :
    Emits mw (b :: be64 u) (prefix64 mw b u) := by
  obtain ⟨h0, h1, h2⟩ := hv
  exact emit_core mw _ (b :: be64 u) 9 rfl h0 h1 (by omega) (by intro h; omega) ha

theorem be16_eq (u : Nat) : be16 u = bigEndian 2 u := by
  simp [be16, bigEndian, Nat.shiftRight_eq_div_pow]

theorem be32_eq (u : Nat) : be32 u = bigEndian 4 u := by
  simp [be32, bigEndian, Nat.shiftRight_eq_div_pow]

theorem be64_eq (u : Nat) : be64 u = bigEndian 8 u := by
  simp [be64, bigEndian, Nat.shiftRight_eq_div_pow]

theorem wfixint_small (u : Nat) (h : u ≤ 127) : wfixint u = u := by
  have e : wfixint u = u % 2 ^ 7 := Nat.and_pow_two_sub_one_eq_mod u 7
  rw [e]; omega

theorem Emits.stream_eq {mw : Writer} {bs cs : List Nat} {r : Result}
    (h : Emits mw bs r) (e : bs = cs) :
    ∃ mw2, r = some (none, mw2) ∧ stream mw2 = stream mw ++ cs := by
  obtain ⟨mw2, h1, h2, _⟩ := h
  exact ⟨mw2, h1, e ▸ h2⟩

/-- C1: on a writer whose sink accepts every write, `WriteUint64 u` returns no error and
appends to the output stream exactly the bytes of the unsigned-integer rule: `u` itself up to
127, `0xcc u` up to 255, `0xcd` and 2 big-endian bytes up to 65535, `0xce` and 4 big-endian
bytes up to `2^32-1`, otherwise `0xcf` and 8 big-endian bytes. -/
theorem WriteUint64_stream (mw : Writer) (u : Nat) (hu : u < 2 ^ 64) (hv : Valid mw)
    (ha : Accepting mw.w) :
    ∃ mw2, WriteUint64 mw u = some (none, mw2) ∧ stream mw2 = stream mw ++ uintWire u := by
  unfold WriteUint64 uintWire MaxInt8 MaxUint8 MaxUint16 MaxUint32
  by_cases h1 : u ≤ 127
  · rw [if_pos h1, if_pos h1]
    refine (push_emits mw _ hv ha).stream_eq ?_
    rw [uint8, Nat.mod_eq_of_lt (by omega), wfixint_small u h1]
  · rw [if_neg h1, if_neg h1]
    by_cases h2 : u ≤ 255
    · rw [if_pos h2, if_pos h2]
      refine (prefix8_emits mw _ _ hv ha).stream_eq ?_
      rw [uint8, Nat.mod_eq_of_lt (by omega)]; rfl
    · rw [if_neg h2, if_neg h2]
      by_cases h3 : u ≤ 65535
      · rw [if_pos h3, if_pos h3]
        refine (prefix16_emits mw _ _ hv ha).stream_eq ?_
        rw [uint16, Nat.mod_eq_of_lt (by omega), be16_eq]; rfl
      · rw [if_neg h3, if_neg h3]
        by_cases h4 : u ≤ 4294967295
        · rw [if_pos h4, if_pos (by omega)]
          refine (prefix32_emits mw _ _ hv ha).stream_eq ?_
          rw [uint32, Nat.mod_eq_of_lt (by omega), be32_eq]; rfl
        · rw [if_neg h4, if_neg (by omega)]
          refine (prefix64_emits mw _ _ hv ha).stream_eq ?_
          rw [be64_eq]; rfl

/-- C1 at 300 on an 18-byte writer with 17 bytes buffered: the flush is triggered and the
stream grows by `0xcd 0x01 0x2c`. -/
theorem WriteUint64_stream_witness :
    (300 < 2 ^ 64 ∧ Valid ⟨freshSink, List.replicate 18 7, 17⟩ ∧ Accepting freshSink) ∧
    uintWire 300 = [0xcd, 0x01, 0x2c] ∧
    ∃ mw2, WriteUint64 ⟨freshSink, List.replicate 18 7, 17⟩ 300 = some (none, mw2) ∧
      stream mw2 = stream ⟨freshSink, List.replicate 18 7, 17⟩ ++ uintWire 300 :=
  ⟨⟨by decide, by decide, fun _ _ => rfl⟩, by decide,
    WriteUint64_stream ⟨freshSink, List.replicate 18 7, 17⟩ 300 (by decide) (by decide)
      (fun _ _ => rfl)⟩

theorem lowBytes_one (i : Int) : lowBytes 1 i = [uint8OfInt i] := by
  have h : (i % 256).toNat < 256 := by omega
  simp [lowBytes, bigEndian, uint8OfInt, Nat.mod_eq_of_lt h]

theorem wfixint_uint8OfInt (i : Int) (h0 : 0 ≤ i) (h1 : i ≤ 127) :
    wfixint (uint8OfInt i) = uint8OfInt i := by
  apply wfixint_small
  simp only [uint8OfInt]
  omega

theorem wnfixint_int8 (i : Int) (h0 : -32 ≤ i) (h1 : i < 0) :
    wnfixint (int8 i) = uint8OfInt i := by
  interval_cases i <;> rfl

theorem lowBytes_two (i : Int) : lowBytes 2 i = be16 (uint16OfInt i) := by
  rw [be16_eq]; rfl

theorem lowBytes_four (i : Int) : lowBytes 4 i = be32 (uint32OfInt i) := by
  rw [be32_eq]; rfl

theorem lowBytes_eight (i : Int) : lowBytes 8 i = be64 (uint64OfInt i) := by
  rw [be64_eq]; rfl

theorem WriteInt64_emits (mw : Writer) (i : Int) (hv : Valid mw) (ha : Accepting mw.w) :
    Emits mw (intWire i) (WriteInt64 mw i) := by
  unfold WriteInt64 intWire MaxInt8 MaxInt16 MaxInt32 MinInt8 MinInt16 MinInt32
  simp only [Nat.cast_ofNat]
  by_cases hs : i ≥ 0
  · by_cases h1 : i ≤ 127
    · simp only [hs, h1, if_true, lowBytes_one, wfixint_uint8OfInt i hs h1]
      exact push_emits mw _ hv ha
    · by_cases h2 : i ≤ 32767
      · simp only [hs, h1, h2, if_true, if_false, lowBytes_two]
        exact prefix16_emits mw _ _ hv ha
      · by_cases h3 : i ≤ 2147483647
        · have h3b : i ≤ 2 ^ 31 - 1 := by omega
          simp only [hs, h1, h2, h3, h3b, if_true, if_false, lowBytes_four]
          exact prefix32_emits mw _ _ hv ha
        · have h3b : ¬ i ≤ 2 ^ 31 - 1 := by omega
          simp only [hs, h1, h2, h3, h3b, if_true, if_false, lowBytes_eight]
          exact prefix64_emits mw _ _ hv ha
  · by_cases h1 : i ≥ -32
    · simp only [hs, h1, if_true, if_false, lowBytes_one, wnfixint_int8 i h1 (by omega)]
      exact push_emits mw _ hv ha
    · by_cases h2 : i ≥ -128
      · simp only [hs, h1, h2, if_true, if_false, lowBytes_one]
        exact prefix8_emits mw _ _ hv ha
      · by_cases h3 : i ≥ -32768
        · simp only [hs, h1, h2, h3, if_true, if_false, lowBytes_two]
          exact prefix16_emits mw _ _ hv ha
        · by_cases h4 : i ≥ -2147483648
          · have h4b : i ≥ -2 ^ 31 := by omega
            simp only [hs, h1, h2, h3, h4, h4b, if_true, if_false, lowBytes_four]
            exact prefix32_emits mw _ _ hv ha
          · have h4b : ¬ i ≥ -2 ^ 31 := by omega
            simp only [hs, h1, h2, h3, h4, h4b, if_true, if_false, lowBytes_eight]
            exact prefix64_emits mw _ _ hv ha

/-- C2: `WriteInt64 i` selects its wire form by the signed rule: for `i >= 0` a positive fixint
up to 127, `int16` up to 32767, `int32` up to `2^31-1`, else `int64`; for `i < 0` a negative
fixint down to -32, `int8` down to -128, `int16` down to -32768, `int32` down to `-2^31`, else
`int64`; the tag is followed by the low bytes of `i` in big-endian order. -/
theorem WriteInt64_wire (mw : Writer) (i : Int) (_hlo : -2 ^ 63 ≤ i) (_hhi : i < 2 ^ 63)
    (hv : Valid mw) (ha : Accepting mw.w) :
    ∃ mw2, WriteInt64 mw i = some (none, mw2) ∧ stream mw2 = stream mw ++ intWire i :=
  (WriteInt64_emits mw i hv ha).stream_eq rfl

/-- C2 at -100: the stream grows by `0xd0 0x9c`. -/
theorem WriteInt64_wire_witness :
    (-2 ^ 63 ≤ (-100 : Int) ∧ (-100 : Int) < 2 ^ 63 ∧
      Valid ⟨freshSink, List.replicate 18 7, 3⟩ ∧ Accepting freshSink) ∧
    intWire (-100) = [0xd0, 0x9c] ∧
    ∃ mw2, WriteInt64 ⟨freshSink, List.replicate 18 7, 3⟩ (-100) = some (none, mw2) ∧
      stream mw2 = stream ⟨freshSink, List.replicate 18 7, 3⟩ ++ intWire (-100) :=
  ⟨⟨by decide, by decide, by decide, fun _ _ => rfl⟩, by decide,
    WriteInt64_wire ⟨freshSink, List.replicate 18 7, 3⟩ (-100) (by decide) (by decide)
      (by decide) (fun _ _ => rfl)⟩

theorem bigEndian_length (w v : Nat) : (bigEndian w v).length = w := by
  induction w with
  | zero => rfl
  | succ k ih => simp [bigEndian, ih]

theorem intWire_length (i : Int) :
    (intWire i).length =
      if i ≥ 0 then
        if i ≤ 127 then 1 else if i ≤ 32767 then 3 else if i ≤ 2 ^ 31 - 1 then 5 else 9
      else
        if i ≥ -32 then 1 else if i ≥ -128 then 2 else if i ≥ -32768 then 3
        else if i ≥ -2 ^ 31 then 5 else 9 := by
  unfold intWire
  split_ifs <;> simp [lowBytes, bigEndian_length]

/-- C3, as stated, fails at 200: `WriteInt64` emits the 3-byte `int16` form `0xd1 0x00 0xc8`,
while the `uint8` form represents 200 exactly in 2 bytes. -/
theorem WriteInt64_not_smallest :
    (WriteInt64 ⟨freshSink, List.replicate 18 0, 0⟩ 200).map (fun r => (r.1, stream r.2))
      = some (none, [0xd1, 0x00, 0xc8]) ∧
    IntForm.represents .uint8 200 = true ∧
    IntForm.size .uint8 < [0xd1, 0x00, 0xc8].length := by
  decide

theorem foldl_bigEndian (w v acc : Nat) :
    (bigEndian w v).foldl (fun a b => a * 256 + b) acc = acc * 256 ^ w + v % 256 ^ w := by
  induction w generalizing acc with
  | zero => simp [bigEndian, Nat.mod_one]
  | succ k ih =>
    simp only [bigEndian, List.foldl_cons, ih]
    rw [Nat.mod_pow_succ]
    ring

theorem beValue_bigEndian (w v : Nat) : beValue (bigEndian w v) = v % 256 ^ w := by
  simp [beValue, foldl_bigEndian]

theorem readPayload_lowBytes (w : Nat) (i : Int) (hw : 0 < w)
    (hlo : -2 ^ (8 * w - 1) ≤ i) (hhi : i < 2 ^ (8 * w - 1)) :
    readPayload w (lowBytes w i) = some i := by
  have hp : (256 : Nat) ^ w = 2 ^ (8 * w) := by
    rw [show (256 : Nat) = 2 ^ 8 by norm_num, ← pow_mul]
  have hd : (2 : Int) ^ (8 * w) = 2 * 2 ^ (8 * w - 1) := by
    rw [← pow_succ']
    congr 1
    omega
  have hpos : (0 : Int) < 2 ^ (8 * w - 1) := by positivity
  have hm : (i % 2 ^ (8 * w)).toNat < 2 ^ (8 * w) := by
    have h1 : i % 2 ^ (8 * w) < 2 ^ (8 * w) := Int.emod_lt_of_pos _ (by positivity)
    have h2 : 0 ≤ i % 2 ^ (8 * w) := Int.emod_nonneg _ (by positivity)
    zify
    rw [Int.toNat_of_nonneg h2]
    exact_mod_cast h1
  unfold readPayload
  rw [if_neg (by simp [lowBytes, bigEndian_length])]
  rw [List.take_of_length_le (by simp [lowBytes, bigEndian_length])]
  simp only [lowBytes, beValue_bigEndian, hp, Nat.mod_eq_of_lt hm]
  congr 1
  unfold twosComplement
  have h2 : 0 ≤ i % 2 ^ (8 * w) := Int.emod_nonneg _ (by positivity)
  have hc : (((i % 2 ^ (8 * w)).toNat : Nat) : Int) = i % 2 ^ (8 * w) := Int.toNat_of_nonneg h2
  by_cases hi : 0 ≤ i
  · have e : i % 2 ^ (8 * w) = i := Int.emod_eq_of_lt hi (by omega)
    have hlt : (i % 2 ^ (8 * w)).toNat < 2 ^ (8 * w - 1) := by
      zify
      rw [hc, e]
      exact_mod_cast hhi
    rw [if_pos hlt, hc, e]
  · have e : i % 2 ^ (8 * w) = i + 2 ^ (8 * w) := by
      rw [← Int.add_emod_self]
      exact Int.emod_eq_of_lt (by omega) (by omega)
    have hlt : ¬ (i % 2 ^ (8 * w)).toNat < 2 ^ (8 * w - 1) := by
      zify
      rw [hc, e]
      omega
    rw [if_neg hlt, hc, e]
    ring

theorem readInt64_fixint (i : Int) (h0 : 0 ≤ i) (h1 : i ≤ 127) :
    readInt64 [uint8OfInt i] = some i := by
  interval_cases i <;> rfl

theorem readInt64_nfixint (i : Int) (h0 : -32 ≤ i) (h1 : i < 0) :
    readInt64 [uint8OfInt i] = some i := by
  interval_cases i <;> rfl

theorem readInt64_intWire (i : Int) (hlo : -2 ^ 63 ≤ i) (hhi : i < 2 ^ 63) :
    readInt64 (intWire i) = some i := by
  unfold intWire
  by_cases hs : i ≥ 0
  · by_cases h1 : i ≤ 127
    · simp only [hs, h1, if_true, lowBytes_one]
      exact readInt64_fixint i hs h1
    · by_cases h2 : i ≤ 32767
      · simp only [hs, h1, h2, if_true, if_false]
        exact readPayload_lowBytes 2 i (by norm_num) (by norm_num; omega) (by norm_num; omega)
      · by_cases h3 : i ≤ 2 ^ 31 - 1
        · simp only [hs, h1, h2, h3, if_true, if_false]
          exact readPayload_lowBytes 4 i (by norm_num) (by norm_num; omega) (by norm_num; omega)
        · simp only [hs, h1, h2, h3, if_true, if_false]
          exact readPayload_lowBytes 8 i (by norm_num) (by norm_num; omega) (by norm_num; omega)
  · by_cases h1 : i ≥ -32
    · simp only [hs, h1, if_true, if_false, lowBytes_one]
      exact readInt64_nfixint i h1 (by omega)
    · by_cases h2 : i ≥ -128
      · simp only [hs, h1, h2, if_true, if_false]
        exact readPayload_lowBytes 1 i (by norm_num) (by norm_num; omega) (by norm_num; omega)
      · by_cases h3 : i ≥ -32768
        · simp only [hs, h1, h2, h3, if_true, if_false]
          exact readPayload_lowBytes 2 i (by norm_num) (by norm_num; omega) (by norm_num; omega)
        · by_cases h4 : i ≥ -2 ^ 31
          · simp only [hs, h1, h2, h3, h4, if_true, if_false]
            exact readPayload_lowBytes 4 i (by norm_num) (by norm_num; omega)
              (by norm_num; omega)
          · simp only [hs, h1, h2, h3, h4, if_true, if_false]
            exact readPayload_lowBytes 8 i (by norm_num) (by norm_num; omega)
              (by norm_num; omega)

/-- C4: decoding the bytes `WriteInt64 i` emits by the standard MessagePack integer rule
(`rfixint` for a byte with top bit 0, `rnfixint` for a byte with top three bits 111, a
big-endian two's complement payload after an `int8`/`int16`/`int32`/`int64` tag) yields
exactly `i`. -/
theorem WriteInt64_roundtrip (mw : Writer) (i : Int) (hlo : -2 ^ 63 ≤ i) (hhi : i < 2 ^ 63)
    (hv : Valid mw) (ha : Accepting mw.w) :
    ∃ mw2 bs, WriteInt64 mw i = some (none, mw2) ∧ stream mw2 = stream mw ++ bs ∧
      readInt64 bs = some i := by
  obtain ⟨mw2, h1, h2, _⟩ := WriteInt64_emits mw i hv ha
  exact ⟨mw2, intWire i, h1, h2, readInt64_intWire i hlo hhi⟩

/-- C4 at -129, the first value that needs the `int16` form. -/
theorem WriteInt64_roundtrip_witness :
    (-2 ^ 63 ≤ (-129 : Int) ∧ (-129 : Int) < 2 ^ 63 ∧
      Valid ⟨freshSink, List.replicate 18 0, 0⟩ ∧ Accepting freshSink) ∧
    ∃ mw2 bs, WriteInt64 ⟨freshSink, List.replicate 18 0, 0⟩ (-129) = some (none, mw2) ∧
      stream mw2 = stream ⟨freshSink, List.replicate 18 0, 0⟩ ++ bs ∧
      readInt64 bs = some (-129) :=
  ⟨⟨by decide, by decide, by decide, fun _ _ => rfl⟩,
    WriteInt64_roundtrip ⟨freshSink, List.replicate 18 0, 0⟩ (-129) (by decide) (by decide)
      (by decide) (fun _ _ => rfl)⟩

theorem and_last4 (n : Nat) (h : n ≤ 15) : n &&& last4 = n := by
  have e : n &&& last4 = n % 2 ^ 4 := Nat.and_pow_two_sub_one_eq_mod n 4
  rw [e]; omega

theorem and_last5 (n : Nat) (h : n ≤ 31) : n &&& last5 = n := by
  have e : n &&& last5 = n % 2 ^ 5 := Nat.and_pow_two_sub_one_eq_mod n 5
  rw [e]; omega

theorem WriteMapHeader_emits (mw : Writer) (n : Nat) (hn : n < 2 ^ 32) (hv : Valid mw)
    (ha : Accepting mw.w) :
    Emits mw (headerWire 0x80 0xde 0xdf n) (WriteMapHeader mw n) := by
  unfold WriteMapHeader headerWire MaxUint16
  by_cases h1 : n ≤ 15
  · simp only [h1, if_true]
    have e : wfixmap (uint8 n) = 0x80 ||| n := by
      rw [uint8, Nat.mod_eq_of_lt (by omega), wfixmap, and_last4 n h1]; rfl
    rw [e]
    exact push_emits mw _ hv ha
  · by_cases h2 : n ≤ 65535
    · simp only [h1, h2, if_true, if_false]
      rw [uint16, Nat.mod_eq_of_lt (by omega), ← be16_eq]
      exact prefix16_emits mw _ _ hv ha
    · simp only [h1, h2, if_false]
      rw [← be32_eq]
      exact prefix32_emits mw _ _ hv ha

theorem WriteArrayHeader_emits (mw : Writer) (n : Nat) (hn : n < 2 ^ 32) (hv : Valid mw)
    (ha : Accepting mw.w) :
    Emits mw (headerWire 0x90 0xdc 0xdd n) (WriteArrayHeader mw n) := by
  unfold WriteArrayHeader headerWire MaxUint16
  by_cases h1 : n ≤ 15
  · simp only [h1, if_true]
    have e : wfixarray (uint8 n) = 0x90 ||| n := by
      rw [uint8, Nat.mod_eq_of_lt (by omega), wfixarray, and_last4 n h1, Nat.lor_comm]; rfl
    rw [e]
    exact push_emits mw _ hv ha
  · by_cases h2 : n ≤ 65535
    · simp only [h1, h2, if_true, if_false]
      rw [uint16, Nat.mod_eq_of_lt (by omega), ← be16_eq]
      exact prefix16_emits mw _ _ hv ha
    · simp only [h1, h2, if_false]
      rw [← be32_eq]
      exact prefix32_emits mw _ _ hv ha

/-- C5: for a count `n`, `WriteMapHeader n` emits the single byte `0x80|n` if `n <= 15`, else
`0xde` and `n` as 2 big-endian bytes if `n <= 65535`, else `0xdf` and `n` as 4 big-endian
bytes; `WriteArrayHeader n` does the same with `0x90|n`, `0xdc` and `0xdd`. -/
theorem WriteMapHeader_WriteArrayHeader_wire (mw : Writer) (n : Nat) (hn : n < 2 ^ 32)
    (hv : Valid mw) (ha : Accepting mw.w) :
    (∃ mw2, WriteMapHeader mw n = some (none, mw2) ∧
      stream mw2 = stream mw ++ headerWire 0x80 0xde 0xdf n) ∧
    (∃ mw2, WriteArrayHeader mw n = some (none, mw2) ∧
      stream mw2 = stream mw ++ headerWire 0x90 0xdc 0xdd n) :=
  ⟨(WriteMapHeader_emits mw n hn hv ha).stream_eq rfl,
    (WriteArrayHeader_emits mw n hn hv ha).stream_eq rfl⟩

/-- C5 at the empty map and the empty array: the single bytes `0x80` and `0x90`. -/
theorem WriteMapHeader_WriteArrayHeader_wire_witness :
    (0 < 2 ^ 32 ∧ Valid ⟨freshSink, List.replicate 18 0, 0⟩ ∧ Accepting freshSink) ∧
    headerWire 0x80 0xde 0xdf 0 = [0x80] ∧
    (∃ mw2, WriteMapHeader ⟨freshSink, List.replicate 18 0, 0⟩ 0 = some (none, mw2) ∧
      stream mw2 = stream ⟨freshSink, List.replicate 18 0, 0⟩ ++ headerWire 0x80 0xde 0xdf 0) ∧
    (∃ mw2, WriteArrayHeader ⟨freshSink, List.replicate 18 0, 0⟩ 0 = some (none, mw2) ∧
      stream mw2 = stream ⟨freshSink, List.replicate 18 0, 0⟩ ++ headerWire 0x90 0xdc 0xdd 0) :=
  ⟨⟨by decide, by decide, fun _ _ => rfl⟩, by decide,
    WriteMapHeader_WriteArrayHeader_wire ⟨freshSink, List.replicate 18 0, 0⟩ 0 (by decide)
      (by decide) (fun _ _ => rfl)⟩

theorem copyAt_fits (b : List Nat) (off : Int) (s : List Nat)
    (h0 : 0 ≤ off) (h1 : off + s.length ≤ b.length) :
    ∃ b2, copyAt b off s = some (b2, (s.length : Int)) ∧ b2.length = b.length ∧
      b2.take (off + s.length).toNat = b.take off.toNat ++ s := by
  have hm : min (b.length - off.toNat) s.length = s.length := by omega
  refine ⟨b.take off.toNat ++ s ++ b.drop (off.toNat + s.length), ?_, ?_, ?_⟩
  · unfold copyAt
    rw [if_pos ⟨h0, by omega⟩]
    simp only [hm, List.take_length]
  · simp only [List.length_append, List.length_take, List.length_drop]
    omega
  · have e : (off + s.length).toNat = (b.take off.toNat ++ s).length := by
      simp only [List.length_append, List.length_take]
      omega
    rw [e, List.take_left]

theorem Accepting.sameRespond {s t : Sink} (h : t.respond = s.respond) (ha : Accepting s) :
    Accepting t := by
  intro k p
  rw [h]
  exact ha k p

theorem Emits.thenEmits {mw : Writer} {bs cs : List Nat} {r : Result} {rest : Writer → Result}
    (h : Emits mw bs r)
    (hrest : ∀ m : Writer, m.buf.length = mw.buf.length → 0 ≤ m.wloc → m.wloc ≤ m.buf.length →
      m.w.respond = mw.w.respond → Emits m cs (rest m)) :
    Emits mw (bs ++ cs) (orReturn r rest) := by
  obtain ⟨m, h1, h2, h3, h4, h5, h6⟩ := h
  obtain ⟨m2, g1, g2, g3, g4, g5, g6⟩ := hrest m h3 h4 h5 h6
  subst h1
  refine ⟨m2, g1, ?_, g3.trans h3, g4, g5, g6.trans h6⟩
  rw [g2, h2, List.append_assoc]

theorem writeString_emits (mw : Writer) (s : List Nat) (h0 : 0 ≤ mw.wloc)
    (h1 : mw.wloc ≤ mw.buf.length) (ha : Accepting mw.w) :
    Emits mw s (writeString mw s) := by
  unfold writeString Buffered
  by_cases hb : (mw.buf.length : Int) - mw.wloc < s.length
  · obtain ⟨m, hF, hw, hbuf, hr, hresp⟩ := Flush_accepting mw h0 h1 ha
    rw [if_pos hb, hF]
    by_cases hl : (s.length : Int) > m.buf.length
    · have hrs := (ha.sameRespond hresp) m.w.calls s
      simp only [hl, if_true, Sink.Write, hrs]
      refine ⟨_, rfl, ?_, ?_, ?_, ?_, hresp⟩
      · simp only [stream, hr, hw]
        simp
      · simp only [hbuf]
      · simp only [hw]; omega
      · simp only [hw]; omega
    · obtain ⟨b2, hc, hlen, ht⟩ := copyAt_fits m.buf m.wloc s (by omega) (by omega)
      rw [hw] at ht
      simp only [zero_add, Int.toNat_ofNat, Int.toNat_zero, List.take_zero,
        List.nil_append] at ht
      simp only [hl, if_false, writeStringCopy, hc]
      refine ⟨_, rfl, ?_, ?_, ?_, ?_, hresp⟩
      · simp only [stream, hr, hw]
        simp [ht]
      · simp only [hlen, hbuf]
      · simp only [hw]; omega
      · simp only [hw, hlen]; omega
  · obtain ⟨b2, hc, hlen, ht⟩ := copyAt_fits mw.buf mw.wloc s h0 (by omega)
    rw [if_neg hb]
    simp only [writeStringCopy, hc]
    refine ⟨_, rfl, ?_, hlen, ?_, ?_, rfl⟩
    · simp only [stream, ht, List.append_assoc]
    · simp only; omega
    · simp only [hlen]; omega

theorem WriteStringHeader_emits (mw : Writer) (n : Nat) (hn : n < 2 ^ 32) (hv : Valid mw)
    (ha : Accepting mw.w) :
    Emits mw (strHeaderWire n) (WriteStringHeader mw n) := by
  unfold WriteStringHeader strHeaderWire MaxUint8 MaxUint16
  by_cases h1 : n ≤ 31
  · simp only [h1, if_true]
    have e : wfixstr (uint8 n) = 0xa0 ||| n := by
      rw [uint8, Nat.mod_eq_of_lt (by omega), wfixstr, and_last5 n h1, Nat.lor_comm]; rfl
    rw [e]
    exact push_emits mw _ hv ha
  · by_cases h2 : n ≤ 255
    · simp only [h1, h2, if_true, if_false]
      rw [uint8, Nat.mod_eq_of_lt (by omega)]
      exact prefix8_emits mw _ _ hv ha
    · by_cases h3 : n ≤ 65535
      · simp only [h1, h2, h3, if_true, if_false]
        rw [uint16, Nat.mod_eq_of_lt (by omega), ← be16_eq]
        exact prefix16_emits mw _ _ hv ha
      · simp only [h1, h2, h3, if_false]
        rw [← be32_eq]
        exact prefix32_emits mw _ _ hv ha

theorem WriteString_emits (mw : Writer) (s : List Nat) (hn : s.length < 2 ^ 32)
    (hv : Valid mw) (ha : Accepting mw.w) :
    Emits mw (strHeaderWire s.length ++ s) (WriteString mw s) := by
  unfold WriteString
  rw [uint32, Nat.mod_eq_of_lt hn]
  refine (WriteStringHeader_emits mw s.length hn hv ha).thenEmits ?_
  intro m _ g0 g1 gr
  exact writeString_emits m s g0 g1 (ha.sameRespond gr)

/-- C6: for a string `s` of byte length `n < 2^32` and a writer of any buffer capacity at least
18 (also smaller than `n`) whose sink accepts every write, `WriteString s` returns no error and
extends the output stream by exactly the header of `n` followed by the bytes of `s`; the
header is `0xa0|n` up to 31, `0xd9 n` up to 255, `0xda` and 2 big-endian bytes up to 65535,
else `0xdb` and 4 big-endian bytes. -/
theorem WriteString_stream (mw : Writer) (s : List Nat) (hn : s.length < 2 ^ 32)
    (hv : Valid mw) (ha : Accepting mw.w) :
    ∃ mw2, WriteString mw s = some (none, mw2) ∧
      stream mw2 = stream mw ++ (strHeaderWire s.length ++ s) :=
  (WriteString_emits mw s hn hv ha).stream_eq rfl

/-- C6 at the string "hi": the stream grows by `0xa2 'h' 'i'`. -/
theorem WriteString_stream_witness :
    ([104, 105].length < 2 ^ 32 ∧ Valid ⟨freshSink, List.replicate 18 0, 17⟩ ∧
      Accepting freshSink) ∧
    strHeaderWire [104, 105].length ++ [104, 105] = [0xa2, 104, 105] ∧
    ∃ mw2, WriteString ⟨freshSink, List.replicate 18 0, 17⟩ [104, 105] = some (none, mw2) ∧
      stream mw2 = stream ⟨freshSink, List.replicate 18 0, 17⟩ ++
        (strHeaderWire [104, 105].length ++ [104, 105]) :=
  ⟨⟨by decide, by decide, fun _ _ => rfl⟩, by decide,
    WriteString_stream ⟨freshSink, List.replicate 18 0, 17⟩ [104, 105] (by decide) (by decide)
      (fun _ _ => rfl)⟩

/-- A string of 20 bytes on an 18-byte buffer holding 3 bytes: the buffered bytes and the
header reach the sink first, then the string is written to the sink directly. -/
theorem WriteString_long_example :
    (WriteString ⟨freshSink, [1, 2, 3] ++ List.replicate 15 0, 3⟩ (List.replicate 20 97)).map
        (fun r => (r.1, r.2.w.received, r.2.wloc))
      = some (none, [1, 2, 3, 0xb4] ++ List.replicate 20 97, 0) := by
  decide

/-- C7, as stated, fails when the sink accepts a prefix without reporting an error: with 3
bytes buffered and a sink that answers `(1, nil)`, `Flush` returns nil and sets the cursor to
0 instead of 2; the bytes at positions 1 and 2 are neither delivered nor retained. -/
theorem Flush_short_write_without_error :
    (Flush ⟨⟨fun _ _ => ⟨1, none⟩, 0, []⟩, [1, 2, 3] ++ List.replicate 15 0, 3⟩).map
        (fun r => (r.1, r.2.w.received, r.2.wloc)) = some (none, [1], 0) ∧
    (0 : Int) ≠ 3 - 1 := by
  decide

/-- C7, amended: when the sink accepts only the first `k` of the `n > 0` buffered bytes
(`0 <= k < n`) and reports an error, `Flush` returns that error, the cursor becomes `n-k`, the
first `n-k` bytes of the buffer are the previously buffered bytes at positions `k..n-1`, and
the sink has received exactly the first `k` buffered bytes. -/
theorem Flush_partial_write (mw : Writer) (k : Int) (e : GoError)
    (h1 : 0 < mw.wloc) (h2 : mw.wloc ≤ mw.buf.length) (hk0 : 0 ≤ k) (hk : k < mw.wloc)
    (hresp : mw.w.respond mw.w.calls (mw.buf.take mw.wloc.toNat) = ⟨k, some e⟩) :
    ∃ mw2, Flush mw = some (some e, mw2) ∧ mw2.wloc = mw.wloc - k ∧
      mw2.buf.take (mw.wloc - k).toNat = (mw.buf.take mw.wloc.toNat).drop k.toNat ∧
      mw2.buf.length = mw.buf.length ∧
      mw2.w.received = mw.w.received ++ mw.buf.take k.toNat := by
  have hs : slice mw.buf 0 mw.wloc = some (mw.buf.take mw.wloc.toNat) := by
    simp [slice, h2, le_of_lt h1]
  have htk : (mw.buf.take mw.wloc.toNat).take k.toNat = mw.buf.take k.toNat := by
    rw [List.take_take, min_eq_left (by omega)]
  unfold Flush
  rw [if_neg (by omega)]
  simp only [hs, Sink.Write, hresp, htk]
  by_cases hp : 0 < k
  · have hs2 : slice mw.buf k mw.wloc = some ((mw.buf.take mw.wloc.toNat).drop k.toNat) := by
      simp [slice, h2, hk0, le_of_lt hk]
    have hlen : ((mw.buf.take mw.wloc.toNat).drop k.toNat).length = (mw.wloc - k).toNat := by
      simp only [List.length_drop, List.length_take]
      omega
    obtain ⟨b2, hc, hl, ht⟩ := copyAt_fits mw.buf 0 ((mw.buf.take mw.wloc.toNat).drop k.toNat)
      (le_refl 0) (by rw [hlen]; omega)
    rw [hlen] at hc ht
    simp only [hp, if_true, hs2, hc]
    refine ⟨_, rfl, ?_, ?_, hl, rfl⟩
    · simp only; omega
    · have e0 : ((0 : Int) + ((mw.wloc - k).toNat : Int)).toNat = (mw.wloc - k).toNat := by
        omega
      rw [e0] at ht
      simpa using ht
  · have hk1 : k = 0 := by omega
    subst hk1
    simp only [lt_irrefl, if_false]
    refine ⟨_, rfl, ?_, ?_, rfl, rfl⟩ <;> simp

/-- C7 amended, with 3 bytes buffered and a sink that accepts 1 byte and fails. -/
theorem Flush_partial_write_witness :
    ((0 : Int) < 3 ∧ (3 : Int) ≤ ([1, 2, 3] ++ List.replicate 15 0).length ∧ (0 : Int) ≤ 1 ∧
      (1 : Int) < 3) ∧
    ∃ mw2, Flush ⟨⟨fun _ _ => ⟨1, some (.io 5)⟩, 0, []⟩, [1, 2, 3] ++ List.replicate 15 0, 3⟩
        = some (some (.io 5), mw2) ∧ mw2.wloc = 3 - 1 ∧
      mw2.buf.take ((3 : Int) - 1).toNat
        = (([1, 2, 3] ++ List.replicate 15 0).take (3 : Int).toNat).drop (1 : Int).toNat ∧
      mw2.buf.length = ([1, 2, 3] ++ List.replicate 15 0).length ∧
      mw2.w.received = [] ++ ([1, 2, 3] ++ List.replicate 15 0).take (1 : Int).toNat :=
  ⟨⟨by decide, by decide, by decide, by decide⟩,
    Flush_partial_write ⟨⟨fun _ _ => ⟨1, some (.io 5)⟩, 0, []⟩, [1, 2, 3] ++ List.replicate 15 0, 3⟩
      1 (.io 5) (by decide) (by decide) (by decide) (by decide) rfl⟩

/-! ## The cursor invariant under an arbitrary sink -/

theorem Flush_spec (mw : Writer) (h0 : 0 ≤ mw.wloc) (h1 : mw.wloc ≤ mw.buf.length)
    (hb : Bounded mw.w) :
    ∃ e mw2, Flush mw = some (e, mw2) ∧ mw2.buf.length = mw.buf.length ∧ 0 ≤ mw2.wloc ∧
      mw2.wloc ≤ mw.wloc ∧ (e = none → mw2.wloc = 0) ∧ mw2.w.respond = mw.w.respond := by
  unfold Flush
  by_cases hz : mw.wloc = 0
  · rw [if_pos hz]
    exact ⟨none, mw, rfl, rfl, h0, le_refl _, fun _ => hz, rfl⟩
  · rw [if_neg hz]
    have hs : slice mw.buf 0 mw.wloc = some (mw.buf.take mw.wloc.toNat) := by
      simp [slice, h0, h1]
    obtain ⟨hn0, hn1⟩ := hb mw.w.calls (mw.buf.take mw.wloc.toNat)
    have hn2 : (mw.w.respond mw.w.calls (mw.buf.take mw.wloc.toNat)).n ≤ mw.wloc := by
      rw [List.length_take] at hn1
      omega
    simp only [hs, Sink.Write]
    generalize mw.w.respond mw.w.calls (mw.buf.take mw.wloc.toNat) = r at hn0 hn1 hn2 ⊢
    obtain ⟨k, err⟩ := r
    simp only at hn0 hn1 hn2 ⊢
    cases err with
    | none => exact ⟨none, _, rfl, rfl, le_refl 0, h0, fun _ => rfl, rfl⟩
    | some e =>
      simp only
      by_cases hp : 0 < k
      · have hs2 : slice mw.buf k mw.wloc = some ((mw.buf.take mw.wloc.toNat).drop k.toNat) := by
          simp [slice, h1, hn0, hn2]
        have hlen : ((mw.buf.take mw.wloc.toNat).drop k.toNat).length = (mw.wloc - k).toNat := by
          simp only [List.length_drop, List.length_take]
          omega
        obtain ⟨b2, hc, hl, _⟩ := copyAt_fits mw.buf 0
          ((mw.buf.take mw.wloc.toNat).drop k.toNat) (le_refl 0) (by rw [hlen]; omega)
        rw [hlen] at hc
        simp only [hp, if_true, hs2, hc]
        refine ⟨some e, _, rfl, hl, ?_, ?_, ?_, rfl⟩
        · simp only; omega
        · simp only; omega
        · intro h; cases h
      · simp only [hp, if_false]
        refine ⟨some e, _, rfl, rfl, h0, le_refl _, ?_, rfl⟩
        intro h; cases h

theorem Bounded.keptRespond {s t : Sink} (h : t.respond = s.respond) (hb : Bounded s) :
    Bounded t := by
  intro k p
  rw [h]
  exact hb k p

theorem Safe.thenSafe {r : Result} {rest : Writer → Result} (h : Safe r)
    (hrest : ∀ m : Writer, Valid m → Bounded m.w → Safe (rest m)) :
    Safe (orReturn r rest) := by
  obtain ⟨a, m, h1, h2, h3⟩ := h
  subst h1
  cases a with
  | none => exact hrest m h2 h3
  | some e => exact ⟨some e, m, rfl, h2, h3⟩

theorem reserve_safe (mw : Writer) (c : Prop) [Decidable c] (k : Int) (h0 : 0 ≤ k)
    (hk : k ≤ 18) (hv : Valid mw) (hb : Bounded mw.w) (hc : ¬ c → mw.wloc + k ≤ mw.buf.length) :
    ∃ e m, (if c then Flush mw else some (none, mw)) = some (e, m) ∧ Valid m ∧ Bounded m.w ∧
      (e = none → m.wloc + k ≤ m.buf.length) := by
  obtain ⟨v0, v1, v2⟩ := hv
  by_cases h : c
  · obtain ⟨e, m, hF, hl, g0, g1, g2, g3⟩ := Flush_spec mw v0 v1 hb
    rw [if_pos h]
    refine ⟨e, m, hF, ⟨g0, by omega, by omega⟩, hb.keptRespond g3, ?_⟩
    intro he
    rw [g2 he]
    omega
  · rw [if_neg h]
    exact ⟨none, mw, rfl, ⟨v0, v1, v2⟩, hb, fun _ => hc h⟩

theorem store_safe (mw : Writer) (c : Prop) [Decidable c] (bs : List Nat) (k : Int)
    (hk : k = bs.length) (h18 : k ≤ 18) (hv : Valid mw) (hb : Bounded mw.w)
    (hc : ¬ c → mw.wloc + k ≤ mw.buf.length) :
    Safe (orReturn (if c then Flush mw else some (none, mw)) fun m =>
      match putAt m.buf m.wloc bs with
      | none => none
      | some buf => some (none, { m with buf := buf, wloc := m.wloc + k })) := by
  obtain ⟨e, m, hr, hvm, hbm, hroom⟩ := reserve_safe mw c k (by omega) h18 hv hb hc
  rw [hr]
  cases e with
  | some e => exact ⟨some e, m, rfl, hvm, hbm⟩
  | none =>
    obtain ⟨g0, g1, g2⟩ := hvm
    obtain ⟨b2, hp, hl, _⟩ := putAt_some m.buf m.wloc bs g0 (by have := hroom rfl; omega)
    simp only [orReturn, hp]
    refine ⟨none, _, rfl, ⟨?_, ?_, ?_⟩, hbm⟩
    · simp only; omega
    · simp only [hl]; exact hroom rfl
    · simp only [hl]; exact g2

theorem push_safe (mw : Writer) (b : Nat) (hv : Valid mw) (hb : Bounded mw.w) :
    Safe (push mw b) := by
  have h := hv
  obtain ⟨h0, h1, h2⟩ := h
  exact store_safe mw _ [b] 1 rfl (by omega) hv hb (by intro h; omega)

theorem prefix8_safe (mw : Writer) (b u : Nat) (hv : Valid mw) (hb : Bounded mw.w) :
    Safe (prefix8 mw b u) :=
  store_safe mw _ [b, u] 2 rfl (by omega) hv hb (by intro h; omega)

theorem prefix16_safe (mw : Writer) (b u : Nat) (hv : Valid mw) (hb : Bounded mw.w) :
    Safe (prefix16 mw b u) :=
  store_safe mw _ (b :: be16 u) 3 rfl (by omega) hv hb (by intro h; omega)

theorem prefix32_safe (mw : Writer) (b u : Nat) (hv : Valid mw) (hb : Bounded mw.w) :
    Safe (prefix32 mw b u) :=
  store_safe mw _ (b :: be32 u) 5 rfl (by omega) hv hb (by intro h; omega)

theorem prefix64_safe (mw : Writer) (b u : Nat) (hv : Valid mw) (hb : Bounded mw.w) :
    Safe (prefix64 mw b u) :=
  store_safe mw _ (b :: be64 u) 9 rfl (by omega) hv hb (by intro h; omega)

theorem copyAt_spec (b : List Nat) (off : Int) (s : List Nat) (h0 : 0 ≤ off)
    (h1 : off ≤ b.length) :
    ∃ b2 c, copyAt b off s = some (b2, c) ∧ b2.length = b.length ∧ 0 ≤ c ∧
      off + c ≤ b.length := by
  unfold copyAt
  rw [if_pos ⟨h0, h1⟩]
  refine ⟨_, _, rfl, ?_, ?_, ?_⟩
  · simp only [List.length_append, List.length_take, List.length_drop]
    omega
  · omega
  · omega

theorem copy_safe (m : Writer) (s : List Nat) (hv : Valid m) (hb : Bounded m.w) :
    Safe (match copyAt m.buf m.wloc s with
      | none => none
      | some (b, c) => some ((none : Option GoError), { m with buf := b, wloc := m.wloc + c })) := by
  obtain ⟨g0, g1, g2⟩ := hv
  obtain ⟨b2, c, hc, hl, c0, c1⟩ := copyAt_spec m.buf m.wloc s g0 g1
  simp only [hc]
  refine ⟨none, _, rfl, ⟨?_, ?_, ?_⟩, hb⟩
  · simp only; omega
  · simp only [hl]; exact c1
  · simp only [hl]; exact g2

theorem flushIf_safe (mw : Writer) (c : Prop) [Decidable c] (hv : Valid mw)
    (hb : Bounded mw.w) : Safe (if c then Flush mw else some (none, mw)) := by
  have h := hv
  obtain ⟨v0, v1, v2⟩ := h
  obtain ⟨e, m, hr, hvm, hbm, _⟩ :=
    reserve_safe mw c 0 (le_refl 0) (by omega) hv hb (by intro _; omega)
  exact ⟨e, m, hr, hvm, hbm⟩

theorem Append_safe (mw : Writer) (bts : List Nat) (hv : Valid mw) (hb : Bounded mw.w) :
    Safe (Append mw bts) :=
  (flushIf_safe mw _ hv hb).thenSafe fun m hm hbm => copy_safe m bts hm hbm

theorem Flush_safe (mw : Writer) (hv : Valid mw) (hb : Bounded mw.w) : Safe (Flush mw) := by
  have h := flushIf_safe mw True hv hb
  rwa [if_pos trivial] at h

theorem sinkWrite_safe (m : Writer) (p : List Nat) (hv : Valid m) (hb : Bounded m.w) :
    Valid { m with w := (m.w.Write p).2 } ∧ Bounded (m.w.Write p).2 :=
  ⟨hv, hb.keptRespond rfl⟩

theorem writeCopy_safe (m : Writer) (p : List Nat) (hv : Valid m) (hb : Bounded m.w) :
    Safe (writeCopy m p) := by
  obtain ⟨g0, g1, g2⟩ := hv
  obtain ⟨b2, c, hc, hl, c0, c1⟩ := copyAt_spec m.buf m.wloc p g0 g1
  simp only [writeCopy, hc]
  refine ⟨_, _, rfl, ⟨?_, ?_, ?_⟩, hb⟩
  · simp only; omega
  · simp only [hl]; exact c1
  · simp only [hl]; exact g2

theorem Write_safe (mw : Writer) (p : List Nat) (hv : Valid mw) (hb : Bounded mw.w) :
    Safe (Write mw p) := by
  unfold Write
  by_cases hc : Buffered mw < p.length
  · obtain ⟨e, m, hF, hvm, hbm⟩ := Flush_safe mw hv hb
    rw [if_pos hc, hF]
    cases e with
    | some e => exact ⟨_, m, rfl, hvm, hbm⟩
    | none =>
      simp only
      by_cases hl : (p.length : Int) > m.buf.length
      · rw [if_pos hl]
        exact ⟨_, _, rfl, (sinkWrite_safe m p hvm hbm).1, (sinkWrite_safe m p hvm hbm).2⟩
      · rw [if_neg hl]
        exact writeCopy_safe m p hvm hbm
  · rw [if_neg hc]
    exact writeCopy_safe mw p hv hb

theorem writeString_safe (mw : Writer) (s : List Nat) (hv : Valid mw) (hb : Bounded mw.w) :
    Safe (writeString mw s) := by
  unfold writeString
  by_cases hc : Buffered mw < s.length
  · obtain ⟨e, m, hF, hvm, hbm⟩ := Flush_safe mw hv hb
    rw [if_pos hc, hF]
    cases e with
    | some e => exact ⟨_, m, rfl, hvm, hbm⟩
    | none =>
      simp only
      by_cases hl : (s.length : Int) > m.buf.length
      · rw [if_pos hl]
        exact ⟨_, _, rfl, (sinkWrite_safe m s hvm hbm).1, (sinkWrite_safe m s hvm hbm).2⟩
      · rw [if_neg hl]
        exact copy_safe m s hvm hbm
  · rw [if_neg hc]
    exact copy_safe mw s hv hb

theorem require_spec (mw : Writer) (n : Int) (h0 : 0 ≤ n) (h18 : n ≤ 18) (hv : Valid mw)
    (hb : Bounded mw.w) :
    ∃ o e m, require mw n = some ((o, e), m) ∧ Valid m ∧ Bounded m.w ∧
      (e = none → 0 ≤ o ∧ o + n = m.wloc) := by
  unfold require
  by_cases hc : (mw.buf.length : Int) - mw.wloc < n
  · obtain ⟨e, m, hF, hvm, hbm, hroom⟩ :=
      reserve_safe mw True n h0 h18 hv hb (by intro h; exact absurd trivial h)
    rw [if_pos trivial] at hF
    rw [if_pos hc, hF]
    cases e with
    | some e => exact ⟨0, some e, m, rfl, hvm, hbm, by intro h; cases h⟩
    | none =>
      obtain ⟨g0, g1, g2⟩ := hvm
      have hr := hroom rfl
      exact ⟨m.wloc, none, _, rfl, ⟨by simp only; omega, hr, g2⟩, hbm, fun _ => ⟨g0, rfl⟩⟩
  · rw [if_neg hc]
    obtain ⟨g0, g1, g2⟩ := hv
    exact ⟨mw.wloc, none, _, rfl, ⟨by simp only; omega, by simp only; omega, g2⟩, hb,
      fun _ => ⟨g0, rfl⟩⟩

theorem putAt_chain (buf : List Nat) (o1 o2 o3 o4 : Int) (A B C D : List Nat)
    (h1 : 0 ≤ o1 ∧ o1 + A.length ≤ buf.length) (h2 : 0 ≤ o2 ∧ o2 + B.length ≤ buf.length)
    (h3 : 0 ≤ o3 ∧ o3 + C.length ≤ buf.length) (h4 : 0 ≤ o4 ∧ o4 + D.length ≤ buf.length) :
    ∃ b2, ((((putAt buf o1 A).bind fun b => putAt b o2 B).bind fun b => putAt b o3 C).bind
      fun b => putAt b o4 D) = some b2 ∧ b2.length = buf.length := by
  obtain ⟨x1, p1, l1, _⟩ := putAt_some buf o1 A h1.1 h1.2
  obtain ⟨x2, p2, l2, _⟩ := putAt_some x1 o2 B h2.1 (by rw [l1]; exact h2.2)
  obtain ⟨x3, p3, l3, _⟩ := putAt_some x2 o3 C h3.1 (by rw [l2, l1]; exact h3.2)
  obtain ⟨x4, p4, l4, _⟩ := putAt_some x3 o4 D h4.1 (by rw [l3, l2, l1]; exact h4.2)
  refine ⟨x4, ?_, by rw [l4, l3, l2, l1]⟩
  simp only [p1, p2, p3, p4, Option.some_bind]

theorem WriteComplex64_safe (ext : Nat) (mw : Writer) (re im : Nat) (hv : Valid mw)
    (hb : Bounded mw.w) : Safe (WriteComplex64 ext mw re im) := by
  obtain ⟨o, e, m, hr, hvm, hbm, ho⟩ := require_spec mw 10 (by omega) (by omega) hv hb
  unfold WriteComplex64
  rw [hr]
  cases e with
  | some e => exact ⟨_, m, rfl, hvm, hbm⟩
  | none =>
    obtain ⟨o0, o1⟩ := ho rfl
    obtain ⟨g0, g1, g2⟩ := hvm
    obtain ⟨b2, hc, hl⟩ := putAt_chain m.buf o (o + 1) (o + 2) (o + 6) [mfixext8] [ext]
      (be32 re) (be32 im) (by simp; omega) (by simp; omega) (by simp [be32]; omega)
      (by simp [be32]; omega)
    simp only [hc, Option.map_some']
    exact ⟨_, _, rfl, ⟨g0, by simp only [hl]; exact g1, by simp only [hl]; exact g2⟩, hbm⟩

theorem WriteComplex128_safe (ext : Nat) (mw : Writer) (re im : Nat) (hv : Valid mw)
    (hb : Bounded mw.w) : Safe (WriteComplex128 ext mw re im) := by
  obtain ⟨o, e, m, hr, hvm, hbm, ho⟩ := require_spec mw 18 (by omega) (by omega) hv hb
  unfold WriteComplex128
  rw [hr]
  cases e with
  | some e => exact ⟨_, m, rfl, hvm, hbm⟩
  | none =>
    obtain ⟨o0, o1⟩ := ho rfl
    obtain ⟨g0, g1, g2⟩ := hvm
    obtain ⟨b2, hc, hl⟩ := putAt_chain m.buf o (o + 1) (o + 2) (o + 10) [mfixext16] [ext]
      (be64 re) (be64 im) (by simp; omega) (by simp; omega) (by simp [be64]; omega)
      (by simp [be64]; omega)
    simp only [hc, Option.map_some']
    exact ⟨_, _, rfl, ⟨g0, by simp only [hl]; exact g1, by simp only [hl]; exact g2⟩, hbm⟩

theorem WriteTime_safe (ext : Nat) (mw : Writer) (sec nsec : Int) (hv : Valid mw)
    (hb : Bounded mw.w) : Safe (WriteTime ext mw sec nsec) := by
  obtain ⟨o, e, m, hr, hvm, hbm, ho⟩ := require_spec mw 15 (by omega) (by omega) hv hb
  unfold WriteTime
  rw [hr]
  cases e with
  | some e => exact ⟨_, m, rfl, hvm, hbm⟩
  | none =>
    obtain ⟨o0, o1⟩ := ho rfl
    obtain ⟨g0, g1, g2⟩ := hvm
    obtain ⟨b2, hc, hl⟩ := putAt_chain m.buf o (o + 1) (o + 2) (o + 3) [mext8] [12] [ext]
      (be64 (uint64OfInt sec) ++ be32 (uint32OfInt nsec)) (by simp; omega) (by simp; omega)
      (by simp; omega) (by simp [be64, be32]; omega)
    simp only [putUnix, hc, Option.map_some']
    exact ⟨_, _, rfl, ⟨g0, by simp only [hl]; exact g1, by simp only [hl]; exact g2⟩, hbm⟩

theorem WriteInt64_safe (mw : Writer) (i : Int) (hv : Valid mw) (hb : Bounded mw.w) :
    Safe (WriteInt64 mw i) := by
  unfold WriteInt64
  split_ifs
  all_goals first
    | exact push_safe mw _ hv hb
    | exact prefix8_safe mw _ _ hv hb
    | exact prefix16_safe mw _ _ hv hb
    | exact prefix32_safe mw _ _ hv hb
    | exact prefix64_safe mw _ _ hv hb

theorem WriteUint64_safe (mw : Writer) (u : Nat) (hv : Valid mw) (hb : Bounded mw.w) :
    Safe (WriteUint64 mw u) := by
  unfold WriteUint64
  split_ifs
  all_goals first
    | exact push_safe mw _ hv hb
    | exact prefix8_safe mw _ _ hv hb
    | exact prefix16_safe mw _ _ hv hb
    | exact prefix32_safe mw _ _ hv hb
    | exact prefix64_safe mw _ _ hv hb

theorem WriteMapHeader_safe (mw : Writer) (sz : Nat) (hv : Valid mw) (hb : Bounded mw.w) :
    Safe (WriteMapHeader mw sz) := by
  unfold WriteMapHeader
  split_ifs
  all_goals first
    | exact push_safe mw _ hv hb
    | exact prefix16_safe mw _ _ hv hb
    | exact prefix32_safe mw _ _ hv hb

theorem WriteArrayHeader_safe (mw : Writer) (sz : Nat) (hv : Valid mw) (hb : Bounded mw.w) :
    Safe (WriteArrayHeader mw sz) := by
  unfold WriteArrayHeader
  split_ifs
  all_goals first
    | exact push_safe mw _ hv hb
    | exact prefix16_safe mw _ _ hv hb
    | exact prefix32_safe mw _ _ hv hb

theorem WriteBytesHeader_safe (mw : Writer) (sz : Nat) (hv : Valid mw) (hb : Bounded mw.w) :
    Safe (WriteBytesHeader mw sz) := by
  unfold WriteBytesHeader
  split_ifs
  all_goals first
    | exact prefix8_safe mw _ _ hv hb
    | exact prefix16_safe mw _ _ hv hb
    | exact prefix32_safe mw _ _ hv hb

theorem WriteStringHeader_safe (mw : Writer) (sz : Nat) (hv : Valid mw) (hb : Bounded mw.w) :
    Safe (WriteStringHeader mw sz) := by
  unfold WriteStringHeader
  split_ifs
  all_goals first
    | exact push_safe mw _ hv hb
    | exact prefix8_safe mw _ _ hv hb
    | exact prefix16_safe mw _ _ hv hb
    | exact prefix32_safe mw _ _ hv hb

theorem WriteBool_safe (mw : Writer) (b : Bool) (hv : Valid mw) (hb : Bounded mw.w) :
    Safe (WriteBool mw b) := by
  unfold WriteBool
  split_ifs <;> exact push_safe mw _ hv hb

theorem dropCount_safe (m : Writer) (p : List Nat) (hv : Valid m) (hb : Bounded m.w) :
    Safe (match Write m p with
      | none => none
      | some ((_, err), mw1) => some (err, mw1)) := by
  obtain ⟨⟨n, err⟩, m2, hw, hv2, hb2⟩ := Write_safe m p hv hb
  rw [hw]
  exact ⟨err, m2, rfl, hv2, hb2⟩

theorem WriteBytes_safe (mw : Writer) (b : List Nat) (hv : Valid mw) (hb : Bounded mw.w) :
    Safe (WriteBytes mw b) :=
  (WriteBytesHeader_safe mw _ hv hb).thenSafe fun m hm hbm => dropCount_safe m b hm hbm

theorem WriteStringFromBytes_safe (mw : Writer) (str : List Nat) (hv : Valid mw)
    (hb : Bounded mw.w) : Safe (WriteStringFromBytes mw str) :=
  (WriteStringHeader_safe mw _ hv hb).thenSafe fun m hm hbm => dropCount_safe m str hm hbm

theorem WriteString_safe (mw : Writer) (s : List Nat) (hv : Valid mw) (hb : Bounded mw.w) :
    Safe (WriteString mw s) :=
  (WriteStringHeader_safe mw _ hv hb).thenSafe fun m hm hbm => writeString_safe m s hm hbm

theorem writeMapStrStrLoop_safe (mp : List (List Nat × List Nat)) (mw : Writer)
    (hv : Valid mw) (hb : Bounded mw.w) : Safe (writeMapStrStrLoop mw mp) := by
  induction mp generalizing mw with
  | nil => exact ⟨none, mw, rfl, hv, hb⟩
  | cons kv rest ih =>
    obtain ⟨key, val⟩ := kv
    obtain ⟨e1, m1, hk, hv1, hb1⟩ := WriteString_safe mw key hv hb
    simp only [writeMapStrStrLoop, hk]
    cases e1 with
    | some e => exact ⟨_, m1, rfl, hv1, hb1⟩
    | none =>
      obtain ⟨e2, m2, hval, hv2, hb2⟩ := WriteString_safe m1 val hv1 hb1
      simp only [hval]
      cases e2 with
      | some e => exact ⟨_, m2, rfl, hv2, hb2⟩
      | none => exact ih m2 hv2 hb2

theorem WriteMapStrStr_safe (mw : Writer) (mp : List (List Nat × List Nat)) (hv : Valid mw)
    (hb : Bounded mw.w) : Safe (WriteMapStrStr mw mp) :=
  (WriteMapHeader_safe mw _ hv hb).thenSafe fun m hm hbm => writeMapStrStrLoop_safe mp m hm hbm

/-! ## Buffered and Write -/

/-- C8: `Buffered` returns `len(buf) - wloc`, the free space. On a fresh 18-byte writer, which
holds no byte, it returns 18; after one byte has been pushed it returns 17. -/
theorem Buffered_counts_free_space :
    Buffered ⟨freshSink, List.replicate 18 0, 0⟩ = 18 ∧
    (push ⟨freshSink, List.replicate 18 0, 0⟩ 7).map (fun r => (r.2.wloc, Buffered r.2))
      = some (1, 17) := by
  decide

/-- C10: on a writer whose sink accepts every write completely, `Write p` returns
`(len(p), nil)` and the output stream afterwards is the stream before followed by `p`; when
`len(p)` exceeds the buffer's length, the sink has received the previously buffered bytes and
then `p`, the buffer is unchanged and the cursor is 0. -/
theorem Write_stream (mw : Writer) (p : List Nat) (h0 : 0 ≤ mw.wloc)
    (h1 : mw.wloc ≤ mw.buf.length) (ha : Accepting mw.w) :
    ∃ mw2, Write mw p = some (((p.length : Int), none), mw2) ∧
      stream mw2 = stream mw ++ p ∧
      ((p.length : Int) > mw.buf.length →
        mw2.w.received = stream mw ++ p ∧ mw2.buf = mw.buf ∧ mw2.wloc = 0) := by
  unfold Write Buffered
  by_cases hb : (mw.buf.length : Int) - mw.wloc < p.length
  · obtain ⟨m, hF, hw, hbuf, hr, hresp⟩ := Flush_accepting mw h0 h1 ha
    rw [if_pos hb, hF]
    by_cases hl : (p.length : Int) > m.buf.length
    · have hrs := (ha.sameRespond hresp) m.w.calls p
      simp only [hl, if_true, Sink.Write, hrs]
      refine ⟨_, rfl, ?_, ?_⟩
      · simp only [stream, hr, hw]
        simp
      · intro _
        refine ⟨?_, hbuf, hw⟩
        simp only [hr]
        simp
    · obtain ⟨b2, hc, hlen, ht⟩ := copyAt_fits m.buf m.wloc p (by omega) (by omega)
      rw [hw] at ht
      simp only [zero_add, Int.toNat_ofNat, Int.toNat_zero, List.take_zero,
        List.nil_append] at ht
      simp only [hl, if_false, writeCopy, hc]
      refine ⟨_, rfl, ?_, ?_⟩
      · simp only [stream, hr, hw]
        simp [ht]
      · intro hgt
        rw [hbuf] at hl
        exact absurd hgt hl
  · obtain ⟨b2, hc, hlen, ht⟩ := copyAt_fits mw.buf mw.wloc p h0 (by omega)
    rw [if_neg hb]
    simp only [writeCopy, hc]
    refine ⟨_, rfl, ?_, ?_⟩
    · simp only [stream, ht, List.append_assoc]
    · intro hgt
      omega

/-- C10 at a 20-byte write on an 18-byte writer holding 3 bytes. -/
theorem Write_stream_witness :
    ((0 : Int) ≤ 3 ∧ (3 : Int) ≤ ([1, 2, 3] ++ List.replicate 15 0).length ∧
      Accepting freshSink) ∧
    ∃ mw2, Write ⟨freshSink, [1, 2, 3] ++ List.replicate 15 0, 3⟩ (List.replicate 20 97)
        = some ((((List.replicate 20 97).length : Int), none), mw2) ∧
      stream mw2 = stream ⟨freshSink, [1, 2, 3] ++ List.replicate 15 0, 3⟩ ++
        List.replicate 20 97 ∧
      (((List.replicate 20 97).length : Int) > ([1, 2, 3] ++ List.replicate 15 0).length →
        mw2.w.received = stream ⟨freshSink, [1, 2, 3] ++ List.replicate 15 0, 3⟩ ++
          List.replicate 20 97 ∧
        mw2.buf = [1, 2, 3] ++ List.replicate 15 0 ∧ mw2.wloc = 0) :=
  ⟨⟨by decide, by decide, fun _ _ => rfl⟩,
    Write_stream ⟨freshSink, [1, 2, 3] ++ List.replicate 15 0, 3⟩ (List.replicate 20 97)
      (by decide) (by decide) (fun _ _ => rfl)⟩

/-! ## Append, NewWriterSize and the inline forms -/

/-- C11: `Append` of 19 bytes to an empty 18-byte writer whose sink accepts every write returns
no error, yet the output stream gains only the first 18 bytes: the copy into the buffer is
cut at the buffer's end and the last byte is neither buffered nor sent to the sink. -/
theorem Append_drops_bytes_beyond_buffer :
    stream ⟨freshSink, List.replicate 18 0, 0⟩ = [] ∧
    (Append ⟨freshSink, List.replicate 18 0, 0⟩
        [1, 2, 3, 4, 5, 6, 7, 8, 9, 10, 11, 12, 13, 14, 15, 16, 17, 18, 19]).map
        (fun r => (r.1, r.2.w.received, r.2.buf, r.2.wloc))
      = some (none, [], [1, 2, 3, 4, 5, 6, 7, 8, 9, 10, 11, 12, 13, 14, 15, 16, 17, 18], 18) ∧
    (Write ⟨freshSink, List.replicate 18 0, 0⟩
        [1, 2, 3, 4, 5, 6, 7, 8, 9, 10, 11, 12, 13, 14, 15, 16, 17, 18, 19]).map
        (fun r => (r.1, stream r.2))
      = some ((19, none),
          [1, 2, 3, 4, 5, 6, 7, 8, 9, 10, 11, 12, 13, 14, 15, 16, 17, 18, 19]) := by
  decide

/-- C12: for every requested size `sz`, zero and negative included, `NewWriterSize w sz` is
bound to `w`, has cursor 0 and a buffer of length `max(sz, 18)`. -/
theorem NewWriterSize_clamps (w : Sink) (sz : Int) :
    (NewWriterSize w sz).w = w ∧ (NewWriterSize w sz).wloc = 0 ∧
    ((NewWriterSize w sz).buf.length : Int) = max sz 18 := by
  refine ⟨rfl, rfl, ?_⟩
  simp only [NewWriterSize, List.length_replicate]
  split_ifs <;> omega

theorem NewWriterSize_valid (w : Sink) (sz : Int) : Valid (NewWriterSize w sz) := by
  obtain ⟨_, h1, h2⟩ := NewWriterSize_clamps w sz
  refine ⟨by rw [h1], by rw [h1]; omega, ?_⟩
  omega

/-- C19: for every magnitude in its range, the byte built by `wfixint`, `wnfixint`, `wfixmap`,
`wfixarray`, `wfixstr` is classified as its own form by the matching classifier and by none
of the other four, and the matching reader returns the magnitude. -/
theorem fix_forms_classify_and_read (u : Nat) (hu : u ≤ 127) (i : Int) (hi0 : -32 ≤ i)
    (hi1 : i ≤ -1) (m : Nat) (hm : m ≤ 15) (a : Nat) (ha : a ≤ 15) (s : Nat) (hs : s ≤ 31) :
    (isfixint (wfixint u) = true ∧ isnfixint (wfixint u) = false ∧
      isfixmap (wfixint u) = false ∧ isfixarray (wfixint u) = false ∧
      isfixstr (wfixint u) = false ∧ rfixint (wfixint u) = u) ∧
    (isnfixint (wnfixint i) = true ∧ isfixint (wnfixint i) = false ∧
      isfixmap (wnfixint i) = false ∧ isfixarray (wnfixint i) = false ∧
      isfixstr (wnfixint i) = false ∧ rnfixint (wnfixint i) = i) ∧
    (isfixmap (wfixmap m) = true ∧ isfixint (wfixmap m) = false ∧
      isnfixint (wfixmap m) = false ∧ isfixarray (wfixmap m) = false ∧
      isfixstr (wfixmap m) = false ∧ rfixmap (wfixmap m) = m) ∧
    (isfixarray (wfixarray a) = true ∧ isfixint (wfixarray a) = false ∧
      isnfixint (wfixarray a) = false ∧ isfixmap (wfixarray a) = false ∧
      isfixstr (wfixarray a) = false ∧ rfixarray (wfixarray a) = a) ∧
    (isfixstr (wfixstr s) = true ∧ isfixint (wfixstr s) = false ∧
      isnfixint (wfixstr s) = false ∧ isfixmap (wfixstr s) = false ∧
      isfixarray (wfixstr s) = false ∧ rfixstr (wfixstr s) = s) := by
  refine ⟨?_, ?_, ?_, ?_, ?_⟩
  · interval_cases u <;> decide
  · interval_cases i <;> decide
  · interval_cases m <;> decide
  · interval_cases a <;> decide
  · interval_cases s <;> decide

/-- C19 at the largest magnitudes: 127, -32, 15, 15 and 31, whose bytes are `0x7f`, `0xe0`,
`0x8f`, `0x9f` and `0xbf`. -/
theorem fix_forms_classify_and_read_witness :
    (127 ≤ 127 ∧ (-32 : Int) ≤ -32 ∧ (-32 : Int) ≤ -1 ∧ 15 ≤ 15 ∧ 31 ≤ 31) ∧
    (wfixint 127 = 0x7f ∧ wnfixint (-32) = 0xe0 ∧ wfixmap 15 = 0x8f ∧ wfixarray 15 = 0x9f ∧
      wfixstr 31 = 0xbf) ∧
    (isfixint (wfixint 127) = true ∧ isnfixint (wfixint 127) = false ∧
      isfixmap (wfixint 127) = false ∧ isfixarray (wfixint 127) = false ∧
      isfixstr (wfixint 127) = false ∧ rfixint (wfixint 127) = 127) ∧
    (isnfixint (wnfixint (-32)) = true ∧ isfixint (wnfixint (-32)) = false ∧
      isfixmap (wnfixint (-32)) = false ∧ isfixarray (wnfixint (-32)) = false ∧
      isfixstr (wnfixint (-32)) = false ∧ rnfixint (wnfixint (-32)) = -32) ∧
    (isfixmap (wfixmap 15) = true ∧ isfixint (wfixmap 15) = false ∧
      isnfixint (wfixmap 15) = false ∧ isfixarray (wfixmap 15) = false ∧
      isfixstr (wfixmap 15) = false ∧ rfixmap (wfixmap 15) = 15) ∧
    (isfixarray (wfixarray 15) = true ∧ isfixint (wfixarray 15) = false ∧
      isnfixint (wfixarray 15) = false ∧ isfixmap (wfixarray 15) = false ∧
      isfixstr (wfixarray 15) = false ∧ rfixarray (wfixarray 15) = 15) ∧
    (isfixstr (wfixstr 31) = true ∧ isfixint (wfixstr 31) = false ∧
      isnfixint (wfixstr 31) = false ∧ isfixmap (wfixstr 31) = false ∧
      isfixarray (wfixstr 31) = false ∧ rfixstr (wfixstr 31) = 31) :=
  ⟨⟨by decide, by decide, by decide, by decide, by decide⟩, by decide,
    fix_forms_classify_and_read 127 (by decide) (-32) (by decide) (by decide) 15 (by decide)
      15 (by decide) 31 (by decide)⟩

/-! ## Require -/

theorem wrapInt_id (x : Int) (h0 : -2 ^ 63 ≤ x) (h1 : x < 2 ^ 63) : wrapInt x = x := by
  unfold wrapInt
  omega

/-- C17: `Require([]byte{7}, math.MaxInt64)`, a slice of length 1 and capacity 1 with
`extra = 2^63 - 1 >= 0`: the sum `l + extra` wraps to `-2^63`, the test `c >= r` succeeds and
`Require` returns `old`, whose headroom `cap(old) - len(old)` is 0, not at least `extra`. -/
theorem Require_overflow_returns_old :
    (0 : Int) ≤ 2 ^ 63 - 1 ∧
    Require ⟨[7], 1⟩ (2 ^ 63 - 1) = some ⟨[7], 1⟩ ∧
    ¬ (((⟨[7], 1⟩ : Slice).cap : Int) - ((⟨[7], 1⟩ : Slice).data.length : Int) ≥ 2 ^ 63 - 1) := by
  decide

/-- Where no overflow occurs and `make` does not panic, `Require` does what its doc comment
says: for `extra >= 0` with `max(2*cap(old), len(old)+extra)` within the allocation limit it
returns a slice with the contents of `old` and headroom at least `extra`, and `old` itself
when the headroom already suffices. -/
theorem Require_headroom (old : Slice) (extra : Int) (hwf : old.data.length ≤ old.cap)
    (he : 0 ≤ extra)
    (hlim : max (2 * (old.cap : Int)) ((old.data.length : Int) + extra) ≤ maxAlloc) :
    ∃ s, Require old extra = some s ∧ s.data = old.data ∧
      (s.cap : Int) - (s.data.length : Int) ≥ extra ∧
      ((old.cap : Int) - (old.data.length : Int) ≥ extra → s = old) := by
  have hM : maxAlloc = 2 ^ 48 := rfl
  have hr : wrapInt ((old.data.length : Int) + extra) = (old.data.length : Int) + extra :=
    wrapInt_id _ (by omega) (by omega)
  have hd : wrapInt ((old.cap : Int) * 2) = 2 * (old.cap : Int) := by
    rw [wrapInt_id _ (by omega) (by omega)]
    ring
  unfold Require
  simp only [hr, hd]
  by_cases h1 : (old.cap : Int) ≥ (old.data.length : Int) + extra
  · rw [if_pos h1]
    exact ⟨old, rfl, rfl, by omega, fun _ => rfl⟩
  · rw [if_neg h1]
    by_cases h2 : (old.data.length : Int) = 0
    · have hd0 : old.data = [] := by
        have : old.data.length = 0 := by exact_mod_cast h2
        exact List.length_eq_zero.mp this
      rw [if_pos h2]
      refine ⟨⟨[], extra.toNat⟩, ?_, hd0.symm, ?_, ?_⟩
      · have hx : extra ≤ maxAlloc := by omega
        simp [makeSlice, he, hx]
      · simp only [List.length_nil]
        omega
      · intro h
        omega
    · rw [if_neg h2]
      generalize hc : (if 2 * (old.cap : Int) < (old.data.length : Int) + extra
        then (old.data.length : Int) + extra else 2 * (old.cap : Int)) = c
      have hcm : c = max (2 * (old.cap : Int)) ((old.data.length : Int) + extra) := by
        rw [← hc]
        split_ifs <;> omega
      have hm : makeSlice (old.data.length : Int) c
          = some ⟨List.replicate old.data.length 0, c.toNat⟩ := by
        simp only [makeSlice, Int.toNat_ofNat]
        rw [if_pos ⟨by omega, by omega, by omega⟩]
      simp only [hm]
      refine ⟨_, rfl, ?_, ?_, ?_⟩
      · simp [copySlice]
      · simp only [copySlice, List.length_append, List.length_take, List.length_drop,
          List.length_replicate]
        omega
      · intro h
        omega

/-- `Require` on a full 3-byte slice asked for 4 more bytes. -/
theorem Require_headroom_witness :
    Require ⟨[1, 2, 3], 3⟩ 4 = some ⟨[1, 2, 3], 7⟩ ∧
    ∃ s, Require ⟨[1, 2, 3], 3⟩ 4 = some s ∧ s.data = (⟨[1, 2, 3], 3⟩ : Slice).data ∧
      (s.cap : Int) - (s.data.length : Int) ≥ 4 ∧
      ((((⟨[1, 2, 3], 3⟩ : Slice).cap : Int) - ((⟨[1, 2, 3], 3⟩ : Slice).data.length : Int) ≥ 4) →
        s = ⟨[1, 2, 3], 3⟩) :=
  ⟨by decide, Require_headroom ⟨[1, 2, 3], 3⟩ 4 (by decide) (by decide) (by decide)⟩

/-- C18, as stated, fails for an empty slice: with length 0, capacity 10 and `extra = 11` the
branch `l == 0` returns `make([]byte, 0, extra)`, of capacity 11, less than double the old
capacity. It also fails where no doubled slice can be returned: when `len(old) + extra`
overflows `Require` returns `old` itself, and when the new capacity exceeds the allocation
limit `make` panics. -/
theorem Require_empty_slice_not_doubled :
    (((⟨[], 10⟩ : Slice).cap : Int) - ((⟨[], 10⟩ : Slice).data.length : Int) < 11 ∧
      Require ⟨[], 10⟩ 11 = some ⟨[], 11⟩ ∧ ¬ (2 * 10 ≤ 11)) ∧
    (Require ⟨[7], 1⟩ (2 ^ 63 - 1) = some ⟨[7], 1⟩ ∧ ¬ (2 * 1 ≤ 1)) ∧
    Require ⟨[7], 1⟩ (2 ^ 62) = none := by
  decide

/-- C18, amended: for every byte slice `old` and every `extra >= 0` that exceeds the headroom
`cap(old) - len(old)`: if `old` is not empty and `max(2*cap(old), len(old)+extra)` is within
the allocation limit of `make`, the slice `Require(old, extra)` returns has capacity
`max(2*cap(old), len(old)+extra)`, at least double the capacity of `old`; if `old` is empty
and `extra` is within that limit, the slice returned has capacity `extra`. -/
theorem Require_capacity (old : Slice) (extra : Int) (hwf : old.data.length ≤ old.cap)
    (he : 0 ≤ extra) (hroom : (old.cap : Int) - (old.data.length : Int) < extra) :
    (0 < old.data.length →
      max (2 * (old.cap : Int)) ((old.data.length : Int) + extra) ≤ maxAlloc →
      ∃ s, Require old extra = some s ∧
        (s.cap : Int) = max (2 * (old.cap : Int)) ((old.data.length : Int) + extra) ∧
        2 * old.cap ≤ s.cap) ∧
    (old.data.length = 0 → extra ≤ maxAlloc →
      ∃ s, Require old extra = some s ∧ (s.cap : Int) = extra) := by
  have hM : maxAlloc = 2 ^ 48 := rfl
  constructor
  · intro hpos hlim
    have hr : wrapInt ((old.data.length : Int) + extra) = (old.data.length : Int) + extra :=
      wrapInt_id _ (by omega) (by omega)
    have hd : wrapInt ((old.cap : Int) * 2) = 2 * (old.cap : Int) := by
      rw [wrapInt_id _ (by omega) (by omega)]
      ring
    unfold Require
    simp only [hr, hd]
    rw [if_neg (by omega), if_neg (by omega)]
    generalize hc : (if 2 * (old.cap : Int) < (old.data.length : Int) + extra
      then (old.data.length : Int) + extra else 2 * (old.cap : Int)) = c
    have hcm : c = max (2 * (old.cap : Int)) ((old.data.length : Int) + extra) := by
      rw [← hc]
      split_ifs <;> omega
    have hm : makeSlice (old.data.length : Int) c
        = some ⟨List.replicate old.data.length 0, c.toNat⟩ := by
      simp only [makeSlice, Int.toNat_ofNat]
      rw [if_pos ⟨by omega, by omega, by omega⟩]
    simp only [hm]
    refine ⟨_, rfl, ?_, ?_⟩
    · simp only [copySlice]
      omega
    · simp only [copySlice]
      omega
  · intro hzero hlim
    have hr : wrapInt ((old.data.length : Int) + extra) = (old.data.length : Int) + extra :=
      wrapInt_id _ (by omega) (by omega)
    unfold Require
    simp only [hr]
    rw [if_neg (by omega), if_pos (by omega)]
    refine ⟨⟨[], extra.toNat⟩, ?_, ?_⟩
    · simp [makeSlice, he, hlim]
    · simp only
      omega

/-- C18 amended, at a full 3-byte slice asked for 1 more byte: capacity 6. -/
theorem Require_capacity_witness :
    ((⟨[1, 2, 3], 3⟩ : Slice).data.length ≤ (⟨[1, 2, 3], 3⟩ : Slice).cap ∧ (0 : Int) ≤ 1 ∧
      ((((⟨[1, 2, 3], 3⟩ : Slice).cap : Nat) : Int)
        - ((⟨[1, 2, 3], 3⟩ : Slice).data.length : Int) < 1) ∧
      0 < (⟨[1, 2, 3], 3⟩ : Slice).data.length ∧
      max (2 * (((⟨[1, 2, 3], 3⟩ : Slice).cap : Nat) : Int))
        (((⟨[1, 2, 3], 3⟩ : Slice).data.length : Int) + 1) ≤ maxAlloc) ∧
    Require ⟨[1, 2, 3], 3⟩ 1 = some ⟨[1, 2, 3], 6⟩ ∧
    ∃ s, Require ⟨[1, 2, 3], 3⟩ 1 = some s ∧
      (s.cap : Int) = max (2 * (((⟨[1, 2, 3], 3⟩ : Slice).cap : Nat) : Int))
        (((⟨[1, 2, 3], 3⟩ : Slice).data.length : Int) + 1) ∧
      2 * (⟨[1, 2, 3], 3⟩ : Slice).cap ≤ s.cap :=
  ⟨⟨by decide, by decide, by decide, by decide, by decide⟩, by decide,
    (Require_capacity ⟨[1, 2, 3], 3⟩ 1 (by decide) (by decide) (by decide)).1 (by decide)
      (by decide)⟩

/-! ## require -/

theorem Flush_honest (mw : Writer) (h0 : 0 ≤ mw.wloc) (h1 : mw.wloc ≤ mw.buf.length)
    (hb : Bounded mw.w) (hh : Honest mw.w) :
    ∃ e m, Flush mw = some (e, m) ∧ 0 ≤ m.wloc ∧ m.wloc ≤ mw.wloc ∧
      m.buf.length = mw.buf.length ∧
      (e = none → m.wloc = 0 ∧ m.buf = mw.buf ∧
        m.w.received = mw.w.received ++ mw.buf.take mw.wloc.toNat) := by
  unfold Flush
  by_cases hz : mw.wloc = 0
  · rw [if_pos hz]
    refine ⟨none, mw, rfl, h0, le_refl _, rfl, fun _ => ⟨hz, rfl, ?_⟩⟩
    simp [hz]
  · rw [if_neg hz]
    have hs : slice mw.buf 0 mw.wloc = some (mw.buf.take mw.wloc.toNat) := by
      simp [slice, h0, h1]
    have hpl : ((mw.buf.take mw.wloc.toNat).length : Int) = mw.wloc := by
      rw [List.length_take]
      omega
    obtain ⟨hn0, hn1⟩ := hb mw.w.calls (mw.buf.take mw.wloc.toNat)
    have hhon := hh mw.w.calls (mw.buf.take mw.wloc.toNat)
    rw [hpl] at hn1 hhon
    simp only [hs, Sink.Write]
    generalize mw.w.respond mw.w.calls (mw.buf.take mw.wloc.toNat) = r at hn0 hn1 hhon ⊢
    obtain ⟨k, err⟩ := r
    simp only at hn0 hn1 hhon ⊢
    cases err with
    | none =>
      have hk : k = mw.wloc := by
        by_contra hne
        exact hhon (by omega) rfl
      refine ⟨none, _, rfl, le_refl 0, h0, rfl, fun _ => ⟨rfl, rfl, ?_⟩⟩
      simp only [hk]
      congr 1
      apply List.take_of_length_le
      simp
    | some e =>
      simp only
      by_cases hp : 0 < k
      · have hs2 : slice mw.buf k mw.wloc = some ((mw.buf.take mw.wloc.toNat).drop k.toNat) := by
          simp [slice, h1, hn0, hn1]
        have hlen : ((mw.buf.take mw.wloc.toNat).drop k.toNat).length = (mw.wloc - k).toNat := by
          simp only [List.length_drop, List.length_take]
          omega
        obtain ⟨b2, hc, hl, _⟩ := copyAt_fits mw.buf 0
          ((mw.buf.take mw.wloc.toNat).drop k.toNat) (le_refl 0) (by rw [hlen]; omega)
        rw [hlen] at hc
        simp only [hp, if_true, hs2, hc]
        refine ⟨some e, _, rfl, ?_, ?_, hl, ?_⟩
        · simp only; omega
        · simp only; omega
        · intro h; cases h
      · simp only [hp, if_false]
        refine ⟨some e, _, rfl, h0, le_refl _, rfl, ?_⟩
        intro h; cases h

/-- C20, as stated, fails when the sink accepts a prefix of the flush without reporting an
error: with 17 bytes buffered in an 18-byte buffer and a sink that answers `(1, nil)`,
`require(3)` returns offset 0 and no error, but the sink has received only the first of the
17 bytes and the other 16 are no longer in the buffer. -/
theorem require_loses_bytes_on_short_write :
    stream ⟨⟨fun _ _ => ⟨1, none⟩, 0, []⟩, List.range 18, 17⟩ = List.range 17 ∧
    (require ⟨⟨fun _ _ => ⟨1, none⟩, 0, []⟩, List.range 18, 17⟩ 3).map
        (fun r => (r.1, r.2.wloc, r.2.w.received)) = some ((0, none), 3, [0]) := by
  decide

/-- C20, amended: for every writer with `0 <= wloc <= len(buf)` whose sink answers each write
with a count between 0 and the number of bytes offered and reports an error whenever that
count is smaller, and every `n` with `0 <= n <= len(buf)`: `require(n)` returns an error only
if there was too little room and the flush it triggered returned that error, and then the
cursor is the one the flush left, not advanced; otherwise it returns an offset `o` with
`o + n <= len(buf)`, sets the cursor to `o + n`, leaves the buffer's contents as they were,
and either `o` is the old cursor and nothing was sent, or `o = 0` and all previously buffered
bytes were delivered to the sink. -/
theorem require_reserves (mw : Writer) (n : Int) (h0 : 0 ≤ mw.wloc)
    (h1 : mw.wloc ≤ mw.buf.length) (_hn0 : 0 ≤ n) (hn1 : n ≤ mw.buf.length)
    (hb : Bounded mw.w) (hh : Honest mw.w) :
    ∃ o e mw2, require mw n = some ((o, e), mw2) ∧
      (∀ err, e = some err →
        (mw.buf.length : Int) - mw.wloc < n ∧ Flush mw = some (some err, mw2) ∧
        mw2.wloc ≤ mw.wloc) ∧
      (e = none →
        o + n ≤ mw.buf.length ∧ mw2.wloc = o + n ∧ mw2.buf = mw.buf ∧
        ((o = mw.wloc ∧ mw2.w.received = mw.w.received) ∨
          (o = 0 ∧ mw2.w.received = mw.w.received ++ mw.buf.take mw.wloc.toNat))) := by
  unfold require
  by_cases hc : (mw.buf.length : Int) - mw.wloc < n
  · obtain ⟨e, m, hF, g0, g1, g2, g3⟩ := Flush_honest mw h0 h1 hb hh
    rw [if_pos hc, hF]
    cases e with
    | some e =>
      refine ⟨0, some e, m, rfl, ?_, ?_⟩
      · intro err herr
        cases herr
        exact ⟨hc, rfl, g1⟩
      · intro h; cases h
    | none =>
      obtain ⟨gw, gb, gr⟩ := g3 rfl
      refine ⟨m.wloc, none, _, rfl, ?_, ?_⟩
      · intro err herr; cases herr
      · intro _
        refine ⟨by rw [gw]; omega, rfl, gb, Or.inr ⟨gw, gr⟩⟩
  · rw [if_neg hc]
    refine ⟨mw.wloc, none, _, rfl, ?_, ?_⟩
    · intro err herr; cases herr
    · intro _
      exact ⟨by omega, rfl, rfl, Or.inl ⟨rfl, rfl⟩⟩

/-- C20 amended, for `require(3)` with 17 bytes buffered in an 18-byte buffer over a sink that
accepts every write: offset 0, cursor 3, and the 17 bytes are in the sink. -/
theorem require_reserves_witness :
    ((0 : Int) ≤ 17 ∧ (17 : Int) ≤ (List.range 18).length ∧ (0 : Int) ≤ 3 ∧
      (3 : Int) ≤ (List.range 18).length ∧ Bounded freshSink ∧ Honest freshSink) ∧
    (require ⟨freshSink, List.range 18, 17⟩ 3).map
        (fun r => (r.1, r.2.wloc, r.2.w.received)) = some ((0, none), 3, List.range 17) ∧
    ∃ o e mw2, require ⟨freshSink, List.range 18, 17⟩ 3 = some ((o, e), mw2) ∧
      (∀ err, e = some err →
        ((List.range 18).length : Int) - 17 < 3 ∧
        Flush ⟨freshSink, List.range 18, 17⟩ = some (some err, mw2) ∧ mw2.wloc ≤ 17) ∧
      (e = none →
        o + 3 ≤ (List.range 18).length ∧ mw2.wloc = o + 3 ∧ mw2.buf = List.range 18 ∧
        ((o = 17 ∧ mw2.w.received = freshSink.received) ∨
          (o = 0 ∧ mw2.w.received
            = freshSink.received ++ (List.range 18).take (17 : Int).toNat))) :=
  ⟨⟨by decide, by decide, by decide, by decide,
      fun _ p => ⟨by simp [freshSink], by simp [freshSink]⟩,
      fun _ p h => absurd h (by simp [freshSink])⟩,
    by decide,
    require_reserves ⟨freshSink, List.range 18, 17⟩ 3 (by decide) (by decide) (by decide)
      (by decide) (fun _ p => ⟨by simp [freshSink], by simp [freshSink]⟩)
      (fun _ p h => absurd h (by simp [freshSink]))⟩

/-! ## The dynamic encoder -/

theorem WriteIntf_encoder (env : Env) (mw : Writer) (v : Value)
    (EncodeMsg : Writer → Result) (h : v.caps.encoder = some EncodeMsg) :
    WriteIntf env mw v = EncodeMsg mw := by
  cases v <;> first
    | (simp only [Value.caps] at h; cases h)
    | (simp only [Value.caps] at h
       simp only [WriteIntf, Value.caps, h])

/-- C13: for every value that exposes both the `Encoder` and the `Extension` capability,
`WriteIntf` returns what the value's `EncodeMsg` returns on the writer, whatever
`WriteExtension` would do: the extension path is not taken. -/
theorem WriteIntf_prefers_Encoder (env : Env) (mw : Writer) (v : Value)
    (EncodeMsg : Writer → Result) (e : ExtensionVal)
    (henc : v.caps.encoder = some EncodeMsg) (_hext : v.caps.extension = some e) :
    WriteIntf env mw v = EncodeMsg mw :=
  WriteIntf_encoder env mw v EncodeMsg henc

/-- C13 at a struct value whose `EncodeMsg` pushes the byte 1 and whose `WriteExtension` would
push the byte 2: the byte 1 is written. -/
theorem WriteIntf_prefers_Encoder_witness :
    ((Value.other ⟨some fun mw => push mw 1, some ⟨9, 0, []⟩⟩ "T" Kind.Struct).caps.encoder
        = some (fun mw => push mw 1) ∧
      (Value.other ⟨some fun mw => push mw 1, some ⟨9, 0, []⟩⟩ "T" Kind.Struct).caps.extension
        = some ⟨9, 0, []⟩) ∧
    (push ⟨freshSink, List.replicate 18 0, 0⟩ 1).map (fun r => (r.1, stream r.2))
      = some (none, [1]) ∧
    WriteIntf ⟨fun mw _ => push mw 2, 3, 4, 5⟩ ⟨freshSink, List.replicate 18 0, 0⟩
        (Value.other ⟨some fun mw => push mw 1, some ⟨9, 0, []⟩⟩ "T" Kind.Struct)
      = (fun mw => push mw 1) ⟨freshSink, List.replicate 18 0, 0⟩ :=
  ⟨⟨rfl, rfl⟩, by decide,
    WriteIntf_prefers_Encoder ⟨fun mw _ => push mw 2, 3, 4, 5⟩
      ⟨freshSink, List.replicate 18 0, 0⟩
      (Value.other ⟨some fun mw => push mw 1, some ⟨9, 0, []⟩⟩ "T" Kind.Struct)
      (fun mw => push mw 1) ⟨9, 0, []⟩ rfl rfl⟩

/-- C14: for every map value whose key type is not of string kind and that exposes neither
the `Encoder` nor the `Extension` capability, `WriteIntf` fails with the error "map keys must
be strings" and returns the writer as it was: nothing is buffered or sent to the sink. -/
theorem WriteIntf_map_keys_must_be_strings (env : Env) (mw : Writer) (c : Caps) (ty : String)
    (keyKind : Kind) (entries : List (List Nat × Value)) (henc : c.encoder = none)
    (hext : c.extension = none) (hkey : keyKind ≠ Kind.String) :
    WriteIntf env mw (Value.map c ty keyKind entries) = some (some GoError.mapKeys, mw) := by
  simp only [WriteIntf, Value.caps, henc, hext]
  rw [if_pos hkey]

/-- C14 at a `map[int]string` with one entry, on a writer holding 3 bytes. -/
theorem WriteIntf_map_keys_must_be_strings_witness :
    (noCaps.encoder = none ∧ noCaps.extension = none ∧ Kind.Int ≠ Kind.String) ∧
    WriteIntf exampleEnv ⟨freshSink, List.replicate 18 0, 3⟩
        (Value.map noCaps "map[int]string" Kind.Int [([49], Value.string [97])])
      = some (some GoError.mapKeys, ⟨freshSink, List.replicate 18 0, 3⟩) :=
  ⟨⟨rfl, rfl, by decide⟩,
    WriteIntf_map_keys_must_be_strings exampleEnv ⟨freshSink, List.replicate 18 0, 3⟩ noCaps
      "map[int]string" Kind.Int [([49], Value.string [97])] rfl rfl (by decide)⟩

/-- C15, as stated, fails: for a function value `WriteIntf` returns the error built by
`fmt.Errorf`, not the `ErrUnsupportedType` it returns for a struct without capabilities; and
for the nil interface, the only value of kind invalid, it returns no error and writes the
Nil byte `0xc0`. -/
theorem WriteIntf_unsupported_errors_differ :
    (WriteIntf exampleEnv ⟨freshSink, List.replicate 18 0, 0⟩
        (Value.other noCaps "func()" Kind.Func)).map (fun r => r.1)
      = some (some (GoError.notSupported "func()")) ∧
    (WriteIntf exampleEnv ⟨freshSink, List.replicate 18 0, 0⟩
        (Value.other noCaps "struct {}" Kind.Struct)).map (fun r => r.1)
      = some (some (GoError.unsupportedType "struct {}")) ∧
    GoError.notSupported "func()" ≠ GoError.unsupportedType "func()" ∧
    Value.nil.kind = Kind.Invalid ∧
    (WriteIntf exampleEnv ⟨freshSink, List.replicate 18 0, 0⟩ Value.nil).map
        (fun r => (r.1, stream r.2)) = some (none, [0xc0]) :=
  ⟨rfl, rfl, fun h => GoError.noConfusion h, rfl, by decide⟩

/-- C15, amended: for every value whose kind is function or channel and that exposes neither
the `Encoder` nor the `Extension` capability, `WriteIntf` fails with the error
"msgp: type ... not supported" and returns the writer as it was; for a struct without
capabilities it fails with `ErrUnsupportedType` identifying the type; the two errors are
different. -/
theorem WriteIntf_unsupported_kind (env : Env) (mw : Writer) (v : Value)
    (hk : v.kind = Kind.Func ∨ v.kind = Kind.Chan) (henc : v.caps.encoder = none)
    (hext : v.caps.extension = none) (ty2 : String) :
    ∃ ty, WriteIntf env mw v = some (some (GoError.notSupported ty), mw) ∧
      WriteIntf env mw (Value.other noCaps ty2 Kind.Struct)
        = some (some (GoError.unsupportedType ty2), mw) ∧
      GoError.notSupported ty ≠ GoError.unsupportedType ty2 := by
  cases v with
  | other c ty k =>
    refine ⟨ty, ?_, rfl, fun h => GoError.noConfusion h⟩
    simp only [Value.caps] at henc hext
    simp only [Value.kind] at hk
    rcases hk with hk | hk <;> subst hk <;> simp [WriteIntf, Value.caps, henc, hext, isSupported]
  | _ => simp [Value.kind] at hk

/-- C15 amended, at a channel value. -/
theorem WriteIntf_unsupported_kind_witness :
    (((Value.other noCaps "chan int" Kind.Chan).kind = Kind.Func ∨
        (Value.other noCaps "chan int" Kind.Chan).kind = Kind.Chan) ∧
      (Value.other noCaps "chan int" Kind.Chan).caps.encoder = none ∧
      (Value.other noCaps "chan int" Kind.Chan).caps.extension = none) ∧
    ∃ ty, WriteIntf exampleEnv ⟨freshSink, List.replicate 18 0, 0⟩
        (Value.other noCaps "chan int" Kind.Chan)
        = some (some (GoError.notSupported ty), ⟨freshSink, List.replicate 18 0, 0⟩) ∧
      WriteIntf exampleEnv ⟨freshSink, List.replicate 18 0, 0⟩
          (Value.other noCaps "struct {}" Kind.Struct)
        = some (some (GoError.unsupportedType "struct {}"),
            ⟨freshSink, List.replicate 18 0, 0⟩) ∧
      GoError.notSupported ty ≠ GoError.unsupportedType "struct {}" :=
  ⟨⟨Or.inr rfl, rfl, rfl⟩,
    WriteIntf_unsupported_kind exampleEnv ⟨freshSink, List.replicate 18 0, 0⟩
      (Value.other noCaps "chan int" Kind.Chan) (Or.inr rfl) rfl rfl "struct {}"⟩

/-- C16: for the array `[2]int{1, 2}` without capabilities `WriteIntf` returns
`ErrUnsupportedType` and writes nothing, because the switch on the kind has no case for
arrays; the slice `[]int{1, 2}` with the same elements is written as `0x92 0x01 0x02`. -/
theorem WriteIntf_rejects_arrays :
    WriteIntf exampleEnv ⟨freshSink, List.replicate 18 0, 0⟩
        (Value.array noCaps "[2]int" [Value.int 1, Value.int 2])
      = some (some (GoError.unsupportedType "[2]int"), ⟨freshSink, List.replicate 18 0, 0⟩) ∧
    (WriteIntf exampleEnv ⟨freshSink, List.replicate 18 0, 0⟩
        (Value.slice noCaps "[]int" [Value.int 1, Value.int 2])).map
        (fun r => (r.1, stream r.2)) = some (none, [0x92, 0x01, 0x02]) :=
  ⟨rfl, by decide⟩

/-! ## A sink error during the flush an integer write triggers -/

theorem Flush_error (mw : Writer) (k : Int) (e : GoError)
    (h1 : 0 < mw.wloc) (h2 : mw.wloc ≤ mw.buf.length) (hk0 : 0 ≤ k) (hk : k ≤ mw.wloc)
    (hresp : mw.w.respond mw.w.calls (mw.buf.take mw.wloc.toNat) = ⟨k, some e⟩) :
    ∃ mw2, Flush mw = some (some e, mw2) ∧ mw2.w.calls = mw.w.calls + 1 ∧
      mw2.buf.take mw2.wloc.toNat = (mw.buf.take mw.wloc.toNat).drop k.toNat ∧
      mw2.w.received = mw.w.received ++ mw.buf.take k.toNat := by
  have hs : slice mw.buf 0 mw.wloc = some (mw.buf.take mw.wloc.toNat) := by
    simp [slice, h2, le_of_lt h1]
  have htk : (mw.buf.take mw.wloc.toNat).take k.toNat = mw.buf.take k.toNat := by
    rw [List.take_take, min_eq_left (by omega)]
  unfold Flush
  rw [if_neg (by omega)]
  simp only [hs, Sink.Write, hresp, htk]
  by_cases hp : 0 < k
  · have hs2 : slice mw.buf k mw.wloc = some ((mw.buf.take mw.wloc.toNat).drop k.toNat) := by
      simp [slice, h2, hk0, hk]
    have hlen : ((mw.buf.take mw.wloc.toNat).drop k.toNat).length = (mw.wloc - k).toNat := by
      simp only [List.length_drop, List.length_take]
      omega
    obtain ⟨b2, hc, _, ht⟩ := copyAt_fits mw.buf 0 ((mw.buf.take mw.wloc.toNat).drop k.toNat)
      (le_refl 0) (by rw [hlen]; omega)
    rw [hlen] at hc ht
    simp only [hp, if_true, hs2, hc]
    refine ⟨_, rfl, rfl, ?_, rfl⟩
    have e0 : ((0 : Int) + ((mw.wloc - k).toNat : Int)).toNat = (mw.wloc - k).toNat := by
      omega
    rw [e0] at ht
    simp only [Int.toNat_zero, List.take_zero, List.nil_append] at ht
    simp only [Int.toNat_ofNat]
    exact ht
  · have hk1 : k = 0 := by omega
    subst hk1
    simp only [lt_irrefl, if_false]
    refine ⟨_, rfl, rfl, ?_, rfl⟩
    simp

theorem flush_error_returns (mw mw2 : Writer) (c : Prop) [Decidable c] (e : GoError)
    (rest : Writer → Result) (hc : c) (hF : Flush mw = some (some e, mw2)) :
    orReturn (if c then Flush mw else some (none, mw)) rest = some (some e, mw2) := by
  rw [if_pos hc, hF]
  rfl

theorem push_flush_error (mw mw2 : Writer) (b : Nat) (e : GoError)
    (hw : mw.wloc ≤ mw.buf.length) (hroom : (mw.buf.length : Int) - mw.wloc < 1)
    (hF : Flush mw = some (some e, mw2)) : push mw b = some (some e, mw2) :=
  flush_error_returns mw mw2 _ e _ (by omega) hF

theorem prefix8_flush_error (mw mw2 : Writer) (b u : Nat) (e : GoError)
    (hroom : (mw.buf.length : Int) - mw.wloc < 2)
    (hF : Flush mw = some (some e, mw2)) : prefix8 mw b u = some (some e, mw2) :=
  flush_error_returns mw mw2 _ e _ hroom hF

theorem prefix16_flush_error (mw mw2 : Writer) (b u : Nat) (e : GoError)
    (hroom : (mw.buf.length : Int) - mw.wloc < 3)
    (hF : Flush mw = some (some e, mw2)) : prefix16 mw b u = some (some e, mw2) :=
  flush_error_returns mw mw2 _ e _ hroom hF

theorem prefix32_flush_error (mw mw2 : Writer) (b u : Nat) (e : GoError)
    (hroom : (mw.buf.length : Int) - mw.wloc < 5)
    (hF : Flush mw = some (some e, mw2)) : prefix32 mw b u = some (some e, mw2) :=
  flush_error_returns mw mw2 _ e _ hroom hF

theorem prefix64_flush_error (mw mw2 : Writer) (b u : Nat) (e : GoError)
    (hroom : (mw.buf.length : Int) - mw.wloc < 9)
    (hF : Flush mw = some (some e, mw2)) : prefix64 mw b u = some (some e, mw2) :=
  flush_error_returns mw mw2 _ e _ hroom hF

theorem uintWire_length (u : Nat) :
    (uintWire u).length =
      if u ≤ 127 then 1 else if u ≤ 255 then 2 else if u ≤ 65535 then 3
      else if u ≤ 2 ^ 32 - 1 then 5 else 9 := by
  unfold uintWire
  split_ifs <;> simp [bigEndian_length]

theorem WriteInt64_flush_error (mw mw2 : Writer) (i : Int) (e : GoError)
    (hw : mw.wloc ≤ mw.buf.length)
    (hroom : (mw.buf.length : Int) - mw.wloc < (intWire i).length)
    (hF : Flush mw = some (some e, mw2)) : WriteInt64 mw i = some (some e, mw2) := by
  rw [intWire_length] at hroom
  unfold WriteInt64 MaxInt8 MaxInt16 MaxInt32 MinInt8 MinInt16 MinInt32
  simp only [Nat.cast_ofNat]
  by_cases hs : i ≥ 0
  · by_cases h1 : i ≤ 127
    · simp only [hs, h1, if_true] at hroom ⊢
      exact push_flush_error mw mw2 _ e hw (by omega) hF
    · by_cases h2 : i ≤ 32767
      · simp only [hs, h1, h2, if_true, if_false] at hroom ⊢
        exact prefix16_flush_error mw mw2 _ _ e (by omega) hF
      · by_cases h3 : i ≤ 2147483647
        · have h3b : i ≤ 2 ^ 31 - 1 := by omega
          simp only [hs, h1, h2, h3, h3b, if_true, if_false] at hroom ⊢
          exact prefix32_flush_error mw mw2 _ _ e (by omega) hF
        · have h3b : ¬ i ≤ 2 ^ 31 - 1 := by omega
          simp only [hs, h1, h2, h3, h3b, if_true, if_false] at hroom ⊢
          exact prefix64_flush_error mw mw2 _ _ e (by omega) hF
  · by_cases h1 : i ≥ -32
    · simp only [hs, h1, if_true, if_false] at hroom ⊢
      exact push_flush_error mw mw2 _ e hw (by omega) hF
    · by_cases h2 : i ≥ -128
      · simp only [hs, h1, h2, if_true, if_false] at hroom ⊢
        exact prefix8_flush_error mw mw2 _ _ e (by omega) hF
      · by_cases h3 : i ≥ -32768
        · simp only [hs, h1, h2, h3, if_true, if_false] at hroom ⊢
          exact prefix16_flush_error mw mw2 _ _ e (by omega) hF
        · by_cases h4 : i ≥ -2147483648
          · have h4b : i ≥ -2 ^ 31 := by omega
            simp only [hs, h1, h2, h3, h4, h4b, if_true, if_false] at hroom ⊢
            exact prefix32_flush_error mw mw2 _ _ e (by omega) hF
          · have h4b : ¬ i ≥ -2 ^ 31 := by omega
            simp only [hs, h1, h2, h3, h4, h4b, if_true, if_false] at hroom ⊢
            exact prefix64_flush_error mw mw2 _ _ e (by omega) hF

theorem WriteUint64_flush_error (mw mw2 : Writer) (u : Nat) (e : GoError)
    (hw : mw.wloc ≤ mw.buf.length)
    (hroom : (mw.buf.length : Int) - mw.wloc < (uintWire u).length)
    (hF : Flush mw = some (some e, mw2)) : WriteUint64 mw u = some (some e, mw2) := by
  rw [uintWire_length] at hroom
  unfold WriteUint64 MaxInt8 MaxUint8 MaxUint16 MaxUint32
  by_cases h1 : u ≤ 127
  · simp only [h1, if_true] at hroom ⊢
    exact push_flush_error mw mw2 _ e hw (by omega) hF
  · by_cases h2 : u ≤ 255
    · simp only [h1, h2, if_true, if_false] at hroom ⊢
      exact prefix8_flush_error mw mw2 _ _ e (by omega) hF
    · by_cases h3 : u ≤ 65535
      · simp only [h1, h2, h3, if_true, if_false] at hroom ⊢
        exact prefix16_flush_error mw mw2 _ _ e (by omega) hF
      · by_cases h4 : u ≤ 4294967295
        · have h4b : u ≤ 2 ^ 32 - 1 := by omega
          simp only [h1, h2, h3, h4, h4b, if_true, if_false] at hroom ⊢
          exact prefix32_flush_error mw mw2 _ _ e (by omega) hF
        · have h4b : ¬ u ≤ 2 ^ 32 - 1 := by omega
          simp only [h1, h2, h3, h4, h4b, if_true, if_false] at hroom ⊢
          exact prefix64_flush_error mw mw2 _ _ e (by omega) hF

/-- C21: for every int64 `i`, every uint64 `u` and every writer whose free buffer space is
smaller than the encoding, if the sink answers the write of the triggered flush with a count
`k` of accepted bytes and the error `e`, then `WriteInt64(i)` / `WriteUint64(u)` returns `e`,
the sink has been called exactly once, it has received the first `k` buffered bytes, and the
buffered bytes afterwards are exactly the previously buffered bytes from position `k` on: no
byte of the new value is added. -/
theorem integer_write_flush_error (mw : Writer) (i : Int) (u : Nat) (k : Int) (e : GoError)
    (_hlo : -2 ^ 63 ≤ i) (_hhi : i < 2 ^ 63) (_hu : u < 2 ^ 64) (hv : Valid mw)
    (hk0 : 0 ≤ k) (hk1 : k ≤ mw.wloc)
    (hresp : mw.w.respond mw.w.calls (mw.buf.take mw.wloc.toNat) = ⟨k, some e⟩) :
    ((mw.buf.length : Int) - mw.wloc < (intWire i).length →
      ∃ mw2, WriteInt64 mw i = some (some e, mw2) ∧ mw2.w.calls = mw.w.calls + 1 ∧
        mw2.buf.take mw2.wloc.toNat = (mw.buf.take mw.wloc.toNat).drop k.toNat ∧
        mw2.w.received = mw.w.received ++ mw.buf.take k.toNat) ∧
    ((mw.buf.length : Int) - mw.wloc < (uintWire u).length →
      ∃ mw2, WriteUint64 mw u = some (some e, mw2) ∧ mw2.w.calls = mw.w.calls + 1 ∧
        mw2.buf.take mw2.wloc.toNat = (mw.buf.take mw.wloc.toNat).drop k.toNat ∧
        mw2.w.received = mw.w.received ++ mw.buf.take k.toNat) := by
  obtain ⟨v0, v1, v2⟩ := hv
  constructor
  · intro hroom
    have hl : (intWire i).length ≤ 9 := by
      rw [intWire_length]
      split_ifs <;> omega
    obtain ⟨mw2, hF, hc, hb, hr⟩ := Flush_error mw k e (by omega) v1 hk0 hk1 hresp
    exact ⟨mw2, WriteInt64_flush_error mw mw2 i e v1 hroom hF, hc, hb, hr⟩
  · intro hroom
    have hl : (uintWire u).length ≤ 9 := by
      rw [uintWire_length]
      split_ifs <;> omega
    obtain ⟨mw2, hF, hc, hb, hr⟩ := Flush_error mw k e (by omega) v1 hk0 hk1 hresp
    exact ⟨mw2, WriteUint64_flush_error mw mw2 u e v1 hroom hF, hc, hb, hr⟩

/-- C21 at -300 and 300 (3 bytes each) on an 18-byte writer holding 16 bytes, over a sink that
accepts 2 bytes of each write and reports an error: the error is returned after one call and
the buffer holds the 14 bytes the sink did not accept. -/
theorem integer_write_flush_error_witness :
    (-2 ^ 63 ≤ (-300 : Int) ∧ (-300 : Int) < 2 ^ 63 ∧ 300 < 2 ^ 64 ∧
      Valid ⟨⟨fun _ _ => ⟨2, some (.io 7)⟩, 0, []⟩, List.range 18, 16⟩ ∧
      (0 : Int) ≤ 2 ∧ (2 : Int) ≤ 16 ∧
      ((List.range 18).length : Int) - 16 < (intWire (-300)).length ∧
      ((List.range 18).length : Int) - 16 < (uintWire 300).length) ∧
    (WriteInt64 ⟨⟨fun _ _ => ⟨2, some (.io 7)⟩, 0, []⟩, List.range 18, 16⟩ (-300)).map
        (fun r => (r.1, r.2.w.calls, r.2.w.received, r.2.buf.take r.2.wloc.toNat))
      = some (some (.io 7), 1, [0, 1], [2, 3, 4, 5, 6, 7, 8, 9, 10, 11, 12, 13, 14, 15]) ∧
    (((List.range 18).length : Int) - 16 < (intWire (-300)).length →
      ∃ mw2, WriteInt64 ⟨⟨fun _ _ => ⟨2, some (.io 7)⟩, 0, []⟩, List.range 18, 16⟩ (-300)
          = some (some (.io 7), mw2) ∧ mw2.w.calls = 0 + 1 ∧
        mw2.buf.take mw2.wloc.toNat
          = ((List.range 18).take (16 : Int).toNat).drop (2 : Int).toNat ∧
        mw2.w.received = [] ++ (List.range 18).take (2 : Int).toNat) ∧
    (((List.range 18).length : Int) - 16 < (uintWire 300).length →
      ∃ mw2, WriteUint64 ⟨⟨fun _ _ => ⟨2, some (.io 7)⟩, 0, []⟩, List.range 18, 16⟩ 300
          = some (some (.io 7), mw2) ∧ mw2.w.calls = 0 + 1 ∧
        mw2.buf.take mw2.wloc.toNat
          = ((List.range 18).take (16 : Int).toNat).drop (2 : Int).toNat ∧
        mw2.w.received = [] ++ (List.range 18).take (2 : Int).toNat) :=
  ⟨⟨by decide, by decide, by decide, by decide, by decide, by decide, by decide, by decide⟩,
    by decide,
    integer_write_flush_error ⟨⟨fun _ _ => ⟨2, some (.io 7)⟩, 0, []⟩, List.range 18, 16⟩
      (-300) 300 2 (.io 7) (by decide) (by decide) (by decide) (by decide) (by decide)
      (by decide) rfl⟩

/-! ## The form WriteInt64 chooses -/

theorem intWire_form (i : Int) (hlo : -2 ^ 63 ≤ i) (hhi : i < 2 ^ 63) :
    ∃ f0 : IntForm, intWire i = f0.wire i ∧ f0.signed = true ∧ f0.represents i = true ∧
      (f0.wire i).length = f0.size ∧
      ∀ f : IntForm, f.signed = true → f.represents i = true → f0.size ≤ f.size := by
  by_cases hs : i ≥ 0
  · by_cases h1 : i ≤ 127
    · refine ⟨.posFixint, ?_, rfl, ?_, ?_, ?_⟩
      · simp only [intWire, IntForm.wire, hs, h1, if_true]
      · simp only [IntForm.represents, decide_eq_true_eq]; omega
      · simp [IntForm.wire, IntForm.size, lowBytes, bigEndian_length]
      · intro f hf hr
        cases f <;> simp only [IntForm.signed, IntForm.represents, IntForm.size,
          decide_eq_true_eq, Bool.false_eq_true] at hf hr ⊢ <;> omega
    · by_cases h2 : i ≤ 32767
      · refine ⟨.int16, ?_, rfl, ?_, ?_, ?_⟩
        · simp only [intWire, IntForm.wire, hs, h1, h2, if_true, if_false]
        · simp only [IntForm.represents, decide_eq_true_eq]; omega
        · simp [IntForm.wire, IntForm.size, lowBytes, bigEndian_length]
        · intro f hf hr
          cases f <;> simp only [IntForm.signed, IntForm.represents, IntForm.size,
            decide_eq_true_eq, Bool.false_eq_true] at hf hr ⊢ <;> omega
      · by_cases h3 : i ≤ 2 ^ 31 - 1
        · refine ⟨.int32, ?_, rfl, ?_, ?_, ?_⟩
          · simp only [intWire, IntForm.wire, hs, h1, h2, h3, if_true, if_false]
          · simp only [IntForm.represents, decide_eq_true_eq]; omega
          · simp [IntForm.wire, IntForm.size, lowBytes, bigEndian_length]
          · intro f hf hr
            cases f <;> simp only [IntForm.signed, IntForm.represents, IntForm.size,
              decide_eq_true_eq, Bool.false_eq_true] at hf hr ⊢ <;> omega
        · refine ⟨.int64, ?_, rfl, ?_, ?_, ?_⟩
          · simp only [intWire, IntForm.wire, hs, h1, h2, h3, if_true, if_false]
          · simp only [IntForm.represents, decide_eq_true_eq]; omega
          · simp [IntForm.wire, IntForm.size, lowBytes, bigEndian_length]
          · intro f hf hr
            cases f <;> simp only [IntForm.signed, IntForm.represents, IntForm.size,
              decide_eq_true_eq, Bool.false_eq_true] at hf hr ⊢ <;> omega
  · by_cases h1 : i ≥ -32
    · refine ⟨.negFixint, ?_, rfl, ?_, ?_, ?_⟩
      · simp only [intWire, IntForm.wire, hs, h1, if_true, if_false]
      · simp only [IntForm.represents, decide_eq_true_eq]; omega
      · simp [IntForm.wire, IntForm.size, lowBytes, bigEndian_length]
      · intro f hf hr
        cases f <;> simp only [IntForm.signed, IntForm.represents, IntForm.size,
          decide_eq_true_eq, Bool.false_eq_true] at hf hr ⊢ <;> omega
    · by_cases h2 : i ≥ -128
      · refine ⟨.int8, ?_, rfl, ?_, ?_, ?_⟩
        · simp only [intWire, IntForm.wire, hs, h1, h2, if_true, if_false]
        · simp only [IntForm.represents, decide_eq_true_eq]; omega
        · simp [IntForm.wire, IntForm.size, lowBytes, bigEndian_length]
        · intro f hf hr
          cases f <;> simp only [IntForm.signed, IntForm.represents, IntForm.size,
            decide_eq_true_eq, Bool.false_eq_true] at hf hr ⊢ <;> omega
      · by_cases h3 : i ≥ -32768
        · refine ⟨.int16, ?_, rfl, ?_, ?_, ?_⟩
          · simp only [intWire, IntForm.wire, hs, h1, h2, h3, if_true, if_false]
          · simp only [IntForm.represents, decide_eq_true_eq]; omega
          · simp [IntForm.wire, IntForm.size, lowBytes, bigEndian_length]
          · intro f hf hr
            cases f <;> simp only [IntForm.signed, IntForm.represents, IntForm.size,
              decide_eq_true_eq, Bool.false_eq_true] at hf hr ⊢ <;> omega
        · by_cases h4 : i ≥ -2 ^ 31
          · refine ⟨.int32, ?_, rfl, ?_, ?_, ?_⟩
            · simp only [intWire, IntForm.wire, hs, h1, h2, h3, h4, if_true, if_false]
            · simp only [IntForm.represents, decide_eq_true_eq]; omega
            · simp [IntForm.wire, IntForm.size, lowBytes, bigEndian_length]
            · intro f hf hr
              cases f <;> simp only [IntForm.signed, IntForm.represents, IntForm.size,
                decide_eq_true_eq, Bool.false_eq_true] at hf hr ⊢ <;> omega
          · refine ⟨.int64, ?_, rfl, ?_, ?_, ?_⟩
            · simp only [intWire, IntForm.wire, hs, h1, h2, h3, h4, if_true, if_false]
            · simp only [IntForm.represents, decide_eq_true_eq]; omega
            · simp [IntForm.wire, IntForm.size, lowBytes, bigEndian_length]
            · intro f hf hr
              cases f <;> simp only [IntForm.signed, IntForm.represents, IntForm.size,
                decide_eq_true_eq, Bool.false_eq_true] at hf hr ⊢ <;> omega

/-- C3, amended: the bytes `WriteInt64 i` emits are the wire bytes of `i` in a form of the
signed family (positive fixint, negative fixint, `int8`, `int16`, `int32`, `int64`) that
represents `i` exactly: they decode to `i`, their length is that form's size, and no form of
the signed family that represents `i` exactly is shorter. -/
theorem WriteInt64_smallest_signed (mw : Writer) (i : Int) (hlo : -2 ^ 63 ≤ i)
    (hhi : i < 2 ^ 63) (hv : Valid mw) (ha : Accepting mw.w) :
    ∃ mw2 f0, WriteInt64 mw i = some (none, mw2) ∧ stream mw2 = stream mw ++ IntForm.wire f0 i ∧
      IntForm.signed f0 = true ∧ IntForm.represents f0 i = true ∧
      readInt64 (IntForm.wire f0 i) = some i ∧
      (IntForm.wire f0 i).length = IntForm.size f0 ∧
      ∀ f : IntForm, f.signed = true → f.represents i = true →
        IntForm.size f0 ≤ IntForm.size f := by
  obtain ⟨mw2, h1, h2, _⟩ := WriteInt64_emits mw i hv ha
  obtain ⟨f0, e, g1, g2, g3, g4⟩ := intWire_form i hlo hhi
  refine ⟨mw2, f0, h1, ?_, g1, g2, ?_, g3, g4⟩
  · rw [← e]; exact h2
  · rw [← e]; exact readInt64_intWire i hlo hhi

/-- C3 amended, at 200 on a fresh writer: the `int16` form `0xd1 0x00 0xc8`. -/
theorem WriteInt64_smallest_signed_witness :
    (-2 ^ 63 ≤ (200 : Int) ∧ (200 : Int) < 2 ^ 63 ∧
      Valid ⟨freshSink, List.replicate 18 0, 0⟩ ∧ Accepting freshSink) ∧
    IntForm.wire .int16 200 = [0xd1, 0x00, 0xc8] ∧
    ∃ mw2 f0, WriteInt64 ⟨freshSink, List.replicate 18 0, 0⟩ 200 = some (none, mw2) ∧
      stream mw2 = stream ⟨freshSink, List.replicate 18 0, 0⟩ ++ IntForm.wire f0 200 ∧
      IntForm.signed f0 = true ∧ IntForm.represents f0 200 = true ∧
      readInt64 (IntForm.wire f0 200) = some 200 ∧
      (IntForm.wire f0 200).length = IntForm.size f0 ∧
      ∀ f : IntForm, f.signed = true → f.represents 200 = true →
        IntForm.size f0 ≤ IntForm.size f :=
  ⟨⟨by decide, by decide, by decide, fun _ _ => rfl⟩, by decide,
    WriteInt64_smallest_signed ⟨freshSink, List.replicate 18 0, 0⟩ 200 (by decide) (by decide)
      (by decide) (fun _ _ => rfl)⟩

/-! ## The cursor invariant under the dynamic encoder -/

theorem WriteIntf_extension (env : Env) (mw : Writer) (v : Value) (e : ExtensionVal)
    (h1 : v.caps.encoder = none) (h2 : v.caps.extension = some e) :
    WriteIntf env mw v = env.WriteExtension mw e := by
  cases v <;> first
    | (simp only [Value.caps] at h2; cases h2)
    | (simp only [Value.caps] at h1 h2
       simp only [WriteIntf, Value.caps, h1, h2])

theorem Value.keeps_caps (v : Value) (h : v.keeps) : v.caps.keeps := by
  cases v <;> first
    | (intro f hf; simp only [Value.caps] at hf; cases hf)
    | (simp only [Value.keeps] at h; simp only [Value.caps]; exact h)
    | (simp only [Value.keeps] at h; simp only [Value.caps]; exact h.1)

mutual

theorem WriteIntf_safe (env : Env) (henv : env.keeps) :
    ∀ (v : Value), v.keeps → ∀ (mw : Writer), Valid mw → Bounded mw.w →
      Safe (WriteIntf env mw v)
  | v, hk, mw, hv, hb => by
    cases hce : v.caps.encoder with
    | some f =>
      rw [WriteIntf_encoder env mw v f hce]
      exact v.keeps_caps hk f hce mw hv hb
    | none =>
      cases hcx : v.caps.extension with
      | some e =>
        rw [WriteIntf_extension env mw v e hce hcx]
        exact henv mw e hv hb
      | none =>
        match v, hk, hce, hcx with
        | .nil, _, _, _ => exact push_safe mw _ hv hb
        | .bool b, _, _, _ => exact WriteBool_safe mw b hv hb
        | .float32 bits, _, _, _ => exact prefix32_safe mw _ bits hv hb
        | .float64 bits, _, _, _ => exact prefix64_safe mw _ bits hv hb
        | .complex64 re im, _, _, _ => exact WriteComplex64_safe _ mw re im hv hb
        | .complex128 re im, _, _, _ => exact WriteComplex128_safe _ mw re im hv hb
        | .uint8 u, _, _, _ => exact WriteUint64_safe mw u hv hb
        | .uint16 u, _, _, _ => exact WriteUint64_safe mw u hv hb
        | .uint32 u, _, _, _ => exact WriteUint64_safe mw u hv hb
        | .uint64 u, _, _, _ => exact WriteUint64_safe mw u hv hb
        | .uint u, _, _, _ => exact WriteUint64_safe mw u hv hb
        | .int8 i, _, _, _ => exact WriteInt64_safe mw i hv hb
        | .int16 i, _, _, _ => exact WriteInt64_safe mw i hv hb
        | .int32 i, _, _, _ => exact WriteInt64_safe mw i hv hb
        | .int64 i, _, _, _ => exact WriteInt64_safe mw i hv hb
        | .int i, _, _, _ => exact WriteInt64_safe mw i hv hb
        | .string s, _, _, _ => exact WriteString_safe mw s hv hb
        | .bytes b, _, _, _ => exact WriteBytes_safe mw b hv hb
        | .mapStrStr mp, _, _, _ => exact WriteMapStrStr_safe mw mp hv hb
        | .time sec nsec, _, _, _ => exact WriteTime_safe _ mw sec nsec hv hb
        | .mapStrIntf mp, hk, _, _ =>
          simp only [Value.keeps] at hk
          obtain ⟨e1, m1, hh, hv1, hb1⟩ := WriteMapHeader_safe mw (uint32 mp.length) hv hb
          simp only [WriteIntf, Value.caps, hh]
          cases e1 with
          | some e => exact ⟨_, m1, rfl, hv1, hb1⟩
          | none => exact writeMapLoop_safe env henv mp hk m1 hv1 hb1
        | .nilPtr c ty, _, hce, hcx =>
          simp only [Value.caps] at hce hcx
          simp only [WriteIntf, Value.caps, hce, hcx]
          exact push_safe mw _ hv hb
        | .ptr c ty elem, hk, hce, hcx =>
          simp only [Value.caps] at hce hcx
          simp only [Value.keeps] at hk
          simp only [WriteIntf, Value.caps, hce, hcx]
          exact WriteIntf_safe env henv elem hk.2 mw hv hb
        | .byteSlice c ty b, _, hce, hcx =>
          simp only [Value.caps] at hce hcx
          simp only [WriteIntf, Value.caps, hce, hcx]
          exact WriteBytes_safe mw b hv hb
        | .slice c ty elems, hk, hce, hcx =>
          simp only [Value.caps] at hce hcx
          simp only [Value.keeps] at hk
          obtain ⟨e1, m1, hh, hv1, hb1⟩ := WriteArrayHeader_safe mw (uint32 elems.length) hv hb
          simp only [WriteIntf, Value.caps, hce, hcx, hh]
          cases e1 with
          | some e => exact ⟨_, m1, rfl, hv1, hb1⟩
          | none => exact writeSliceLoop_safe env henv elems hk.2 _ m1 hv1 hb1
        | .map c ty keyKind entries, hk, hce, hcx =>
          simp only [Value.caps] at hce hcx
          simp only [Value.keeps] at hk
          simp only [WriteIntf, Value.caps, hce, hcx]
          split_ifs
          · exact ⟨_, mw, rfl, hv, hb⟩
          · obtain ⟨e1, m1, hh, hv1, hb1⟩ :=
              WriteMapHeader_safe mw (uint32 entries.length) hv hb
            simp only [hh]
            cases e1 with
            | some e => exact ⟨_, m1, rfl, hv1, hb1⟩
            | none => exact writeMapLoop_safe env henv entries hk.2 m1 hv1 hb1
        | .array c ty elems, _, hce, hcx =>
          simp only [Value.caps] at hce hcx
          simp only [WriteIntf, Value.caps, hce, hcx]
          exact ⟨_, mw, rfl, hv, hb⟩
        | .other c ty k, _, hce, hcx =>
          simp only [Value.caps] at hce hcx
          simp only [WriteIntf, Value.caps, hce, hcx]
          split_ifs <;> exact ⟨_, mw, rfl, hv, hb⟩

theorem writeMapLoop_safe (env : Env) (henv : env.keeps) :
    ∀ (mp : List (List Nat × Value)), entriesKeep mp → ∀ (mw : Writer), Valid mw →
      Bounded mw.w → Safe (writeMapLoop env mw mp)
  | [], _, mw, hv, hb => ⟨none, mw, rfl, hv, hb⟩
  | (key, val) :: rest, hk, mw, hv, hb => by
    simp only [entriesKeep] at hk
    obtain ⟨e1, m1, h1, hv1, hb1⟩ := WriteString_safe mw key hv hb
    simp only [writeMapLoop, h1]
    cases e1 with
    | some e => exact ⟨_, m1, rfl, hv1, hb1⟩
    | none =>
      obtain ⟨e2, m2, h2, hv2, hb2⟩ := WriteIntf_safe env henv val hk.1 m1 hv1 hb1
      simp only [h2]
      cases e2 with
      | some e => exact ⟨_, m2, rfl, hv2, hb2⟩
      | none => exact writeMapLoop_safe env henv rest hk.2 m2 hv2 hb2

theorem writeSliceLoop_safe (env : Env) (henv : env.keeps) :
    ∀ (elems : List Value), elemsKeep elems → ∀ (todo : Nat) (mw : Writer), Valid mw →
      Bounded mw.w → Safe (writeSliceLoop env mw todo elems)
  | [], _, _, mw, hv, hb => ⟨none, mw, rfl, hv, hb⟩
  | v :: rest, hk, todo, mw, hv, hb => by
    simp only [elemsKeep] at hk
    simp only [writeSliceLoop]
    split_ifs
    · exact ⟨none, mw, rfl, hv, hb⟩
    · obtain ⟨e1, m1, h1, hv1, hb1⟩ := WriteIntf_safe env henv v hk.1 mw hv hb
      simp only [h1]
      cases e1 with
      | some e => exact ⟨_, m1, rfl, hv1, hb1⟩
      | none => exact writeSliceLoop_safe env henv rest hk.2 _ m1 hv1 hb1

end

theorem WriteMapStrIntf_safe (env : Env) (henv : env.keeps) (mp : List (List Nat × Value))
    (hk : entriesKeep mp) (mw : Writer) (hv : Valid mw) (hb : Bounded mw.w) :
    Safe (WriteMapStrIntf env mw mp) := by
  obtain ⟨e1, m1, hh, hv1, hb1⟩ := WriteMapHeader_safe mw (uint32 mp.length) hv hb
  simp only [WriteMapStrIntf, hh]
  cases e1 with
  | some e => exact ⟨_, m1, rfl, hv1, hb1⟩
  | none => exact writeMapLoop_safe env henv mp hk m1 hv1 hb1

/-! ## The cursor invariant: every operation -/

theorem Safe.run {α : Type} {r : Option (α × Writer)} (h : Safe r) :
    ∃ mw2, r.map Prod.snd = some mw2 ∧ Valid mw2 := by
  obtain ⟨a, m, h1, h2, _⟩ := h
  exact ⟨m, by rw [h1]; rfl, h2⟩

/-- The method `require` does not check the sign of its argument: `require(-1)` on a fresh
18-byte writer returns offset 0 without error and leaves the cursor at -1. The package calls
it with the byte counts 10, 15 and 18 only. -/
theorem require_negative_breaks_invariant :
    Valid ⟨freshSink, List.replicate 18 0, 0⟩ ∧ (-1 : Int) ≤ 18 ∧
    (require ⟨freshSink, List.replicate 18 0, 0⟩ (-1)).map (fun r => (r.1, r.2.wloc))
      = some ((0, none), -1) ∧
    ((Op.require (-1)).run ⟨freshSink, List.replicate 18 0, 0⟩).map (fun m => decide (Valid m))
      = some false := by
  decide

/-- C9: `0 <= wloc <= len(buf)` is an invariant of the Writer. For every writer with
`len(buf) >= 18` that satisfies it and every sink that answers each write with a count between
0 and the number of bytes offered, with or without an error, each of `Flush`, `Write`,
`Append`, `Reset`, `push`, `prefix8/16/32/64`, `require(n)` with a byte count `n <= 18`, and
every typed `WriteXxx` operation, `WriteMapStrIntf` and `WriteIntf` included, leaves it
satisfied, with the buffer still at least 18 bytes long, and does not panic on an out-of-range
slice or index. -/
theorem Writer_invariant (op : Op) (mw : Writer) (hv : Valid mw) (hb : Bounded mw.w)
    (hop : op.admissible) :
    ∃ mw2, op.run mw = some mw2 ∧ Valid mw2 := by
  cases op with
  | Flush => exact (Flush_safe mw hv hb).run
  | Write p => exact (Write_safe mw p hv hb).run
  | Append bts => exact (Append_safe mw bts hv hb).run
  | Reset w => exact ⟨_, rfl, ⟨le_refl 0, by simp only [Reset]; omega, hv.2.2⟩⟩
  | push b => exact (push_safe mw b hv hb).run
  | prefix8 b u => exact (prefix8_safe mw b u hv hb).run
  | prefix16 b u => exact (prefix16_safe mw b u hv hb).run
  | prefix32 b u => exact (prefix32_safe mw b u hv hb).run
  | prefix64 b u => exact (prefix64_safe mw b u hv hb).run
  | require n =>
    obtain ⟨o, e, m, hr, hvm, _⟩ := require_spec mw n hop.1 hop.2 hv hb
    exact ⟨m, by simp only [Op.run, hr, Option.map_some'], hvm⟩
  | WriteMapHeader sz => exact (WriteMapHeader_safe mw sz hv hb).run
  | WriteArrayHeader sz => exact (WriteArrayHeader_safe mw sz hv hb).run
  | WriteNil => exact (push_safe mw _ hv hb).run
  | WriteFloat64 bits => exact (prefix64_safe mw _ bits hv hb).run
  | WriteFloat32 bits => exact (prefix32_safe mw _ bits hv hb).run
  | WriteInt64 i => exact (WriteInt64_safe mw i hv hb).run
  | WriteInt8 i => exact (WriteInt64_safe mw i hv hb).run
  | WriteInt16 i => exact (WriteInt64_safe mw i hv hb).run
  | WriteInt32 i => exact (WriteInt64_safe mw i hv hb).run
  | WriteInt i => exact (WriteInt64_safe mw i hv hb).run
  | WriteUint64 u => exact (WriteUint64_safe mw u hv hb).run
  | WriteByte u => exact (WriteUint64_safe mw u hv hb).run
  | WriteUint8 u => exact (WriteUint64_safe mw u hv hb).run
  | WriteUint16 u => exact (WriteUint64_safe mw u hv hb).run
  | WriteUint32 u => exact (WriteUint64_safe mw u hv hb).run
  | WriteUint u => exact (WriteUint64_safe mw u hv hb).run
  | WriteBool b => exact (WriteBool_safe mw b hv hb).run
  | WriteBytes b => exact (WriteBytes_safe mw b hv hb).run
  | WriteBytesHeader sz => exact (WriteBytesHeader_safe mw sz hv hb).run
  | WriteString s => exact (WriteString_safe mw s hv hb).run
  | WriteStringHeader sz => exact (WriteStringHeader_safe mw sz hv hb).run
  | WriteStringFromBytes str => exact (WriteStringFromBytes_safe mw str hv hb).run
  | WriteComplex64 ext re im => exact (WriteComplex64_safe ext mw re im hv hb).run
  | WriteComplex128 ext re im => exact (WriteComplex128_safe ext mw re im hv hb).run
  | WriteMapStrStr mp => exact (WriteMapStrStr_safe mw mp hv hb).run
  | WriteTime ext sec nsec => exact (WriteTime_safe ext mw sec nsec hv hb).run
  | WriteMapStrIntf env mp => exact (WriteMapStrIntf_safe env hop.1 mp hop.2 mw hv hb).run
  | WriteIntf env v => exact (WriteIntf_safe env hop.1 v hop.2 mw hv hb).run

theorem exampleEnv_keeps : exampleEnv.keeps :=
  fun mw _ hv hb => ⟨none, mw, rfl, hv, hb⟩

theorem pushOne_keeps : (Caps.mk (some fun mw => push mw 1) none).keeps := by
  intro f hf mw hv hb
  cases hf
  exact push_safe mw 1 hv hb

theorem noCaps_keeps : noCaps.keeps := by
  intro f hf
  cases hf

/-- C9, for `WriteIntf` of a slice holding the int 300 and a struct whose `EncodeMsg` pushes
one byte, on a full 18-byte writer whose sink accepts 2 bytes of each write and reports an
error. -/
theorem Writer_invariant_witness :
    (Valid ⟨⟨fun _ p => ⟨min 2 p.length, some (.io 1)⟩, 0, []⟩, List.replicate 18 9, 18⟩ ∧
      Bounded ⟨fun _ p => ⟨min 2 p.length, some (.io 1)⟩, 0, []⟩ ∧
      (Op.WriteIntf exampleEnv (Value.slice noCaps "[]interface {}"
        [Value.int 300, Value.other ⟨some fun mw => push mw 1, none⟩ "T" Kind.Struct])).admissible) ∧
    ∃ mw2, (Op.WriteIntf exampleEnv (Value.slice noCaps "[]interface {}"
        [Value.int 300, Value.other ⟨some fun mw => push mw 1, none⟩ "T" Kind.Struct])).run
        ⟨⟨fun _ p => ⟨min 2 p.length, some (.io 1)⟩, 0, []⟩, List.replicate 18 9, 18⟩ = some mw2 ∧
      Valid mw2 :=
  ⟨⟨by decide, fun _ p => ⟨by simp only; omega, by simp only; omega⟩,
      exampleEnv_keeps, by
        simp only [Value.keeps, elemsKeep, and_true, true_and]
        exact ⟨noCaps_keeps, pushOne_keeps⟩⟩,
    Writer_invariant (Op.WriteIntf exampleEnv (Value.slice noCaps "[]interface {}"
        [Value.int 300, Value.other ⟨some fun mw => push mw 1, none⟩ "T" Kind.Struct]))
      ⟨⟨fun _ p => ⟨min 2 p.length, some (.io 1)⟩, 0, []⟩, List.replicate 18 9, 18⟩ (by decide)
      (fun _ p => ⟨by simp only; omega, by simp only; omega⟩)
      ⟨exampleEnv_keeps, by
        simp only [Value.keeps, elemsKeep, and_true, true_and]
        exact ⟨noCaps_keeps, pushOne_keeps⟩⟩⟩

end Msgp
